import Mathlib

/-!
Verification of the Goose load-testing engine (`src/lib.rs`) against its
natural-language specification.

The Rust source is shallowly embedded: pure functions become Lean functions,
the stateful supervisor loops become explicit state-passing functions, and
machine integers become `Nat`/`Int`.  The repository ships only `lib.rs`;
the modules `goose`, `stats`, `util` are declared there but their files are
absent, so the handful of helpers they provide (`util::gcd`,
`goose::get_base_url`, the `GooseRequest` histogram setters, and the external
`url` crate's `Url::parse`) are modelled from the specification; each such
definition carries a doc comment starting with `Modelled from the spec:`.
-/

/-! ## Data model: tasks and task sets (fields as used by `lib.rs`) -/

/-- A Goose task as consumed by `weight_tasks`: its registration index
(`tasks_index`), positive weight, optional sequence (0 = unsequenced) and the
two phase flags. -/
structure GooseTask where
  tasks_index : Nat
  weight : Nat
  sequence : Nat
  on_start : Bool
  on_stop : Bool
  deriving Repr, DecidableEq

/-- A Goose task set: the declared tasks plus set-level weight, optional host
and wait-time window. -/
structure GooseTaskSet where
  task_sets_index : Nat
  tasks : List GooseTask
  weight : Nat
  host : Option String
  min_wait : Nat
  max_wait : Nat
  deriving Repr, DecidableEq

/-! ## Weight planner (`weight_tasks`, lib.rs 1901-2092)

The Rust function groups tasks with `BTreeMap<usize, Vec<GooseTask>>`.  The
map is embedded as an association list kept strictly ascending by key;
`seqInsert` mirrors the `get_mut`/`push` vs `insert` branch of the loop body.
-/

/-- Insert a task under its sequence key into the ordered association list
embedding of `BTreeMap<usize, Vec<GooseTask>>`: an existing key pushes the
task at the end of its vector, a new key is placed at its sorted position. -/
def seqInsert (k : Nat) (t : GooseTask) :
    List (Nat × List GooseTask) → List (Nat × List GooseTask)
  | [] => [(k, [t])]
  | (q, ts) :: rest =>
    if k = q then (q, ts ++ [t]) :: rest
    else if k < q then (k, [t]) :: (q, ts) :: rest
    else (q, ts) :: seqInsert k t rest

/-- The running state of the single pass over `task_set.tasks` in
`weight_tasks`: the three sequence maps, the three unsequenced vectors and
the gcd accumulator `u`. -/
structure TaskPartition where
  sequenced_tasks : List (Nat × List GooseTask)
  sequenced_on_start_tasks : List (Nat × List GooseTask)
  sequenced_on_stop_tasks : List (Nat × List GooseTask)
  unsequenced_tasks : List GooseTask
  unsequenced_on_start_tasks : List GooseTask
  unsequenced_on_stop_tasks : List GooseTask
  u : Nat

/-- Empty partition state (all maps and vectors empty, `u = 0`). -/
def TaskPartition.init : TaskPartition :=
  ⟨[], [], [], [], [], [], 0⟩

/-- One iteration of the `for task in &task_set.tasks` loop of
`weight_tasks` (lib.rs 1917-1967): place the task in the maps or vectors
according to its sequence and flags, then fold its weight into the gcd
accumulator. -/
def partitionStep (p : TaskPartition) (t : GooseTask) : TaskPartition :=
  let p1 :=
    if 0 < t.sequence then
      let a := if t.on_start then
          { p with sequenced_on_start_tasks :=
              seqInsert t.sequence t p.sequenced_on_start_tasks }
        else p
      let b := if t.on_stop then
          { a with sequenced_on_stop_tasks :=
              seqInsert t.sequence t a.sequenced_on_stop_tasks }
        else a
      if !t.on_start && !t.on_stop then
        { b with sequenced_tasks := seqInsert t.sequence t b.sequenced_tasks }
      else b
    else
      let a := if t.on_start then
          { p with unsequenced_on_start_tasks :=
              p.unsequenced_on_start_tasks ++ [t] }
        else p
      let b := if t.on_stop then
          { a with unsequenced_on_stop_tasks :=
              a.unsequenced_on_stop_tasks ++ [t] }
        else a
      if !t.on_start && !t.on_stop then
        { b with unsequenced_tasks := b.unsequenced_tasks ++ [t] }
      else b
  { p1 with u := if p1.u = 0 then t.weight else Nat.gcd p1.u t.weight }

/-- Expand a list of tasks into a bucket of task indices: each task's index
is repeated `weight / u` times, in order (the `vec![task.tasks_index; weight]`
append loop of the source). -/
def expandBucket (u : Nat) (ts : List GooseTask) : List Nat :=
  ts.foldl (fun acc t => acc ++ List.replicate (t.weight / u) t.tasks_index) []

/-- Embedding of `weight_tasks` (lib.rs 1901-2092).  Returns
`(weighted_on_start_tasks, weighted_tasks, weighted_on_stop_tasks)` in the
source's order.  The unsequenced main bucket is appended only when non-empty
(lib.rs 2007-2009); the unsequenced on-start and on-stop buckets are appended
unconditionally (lib.rs 2047, 2085). -/
def weight_tasks (task_set : GooseTaskSet) :
    List (List Nat) × List (List Nat) × List (List Nat) :=
  let p := task_set.tasks.foldl partitionStep TaskPartition.init
  let u := p.u
  let weighted_tasks :=
    p.sequenced_tasks.map (fun e => expandBucket u e.2)
  let weighted_unsequenced_tasks := expandBucket u p.unsequenced_tasks
  let main_plan :=
    if weighted_unsequenced_tasks.isEmpty then weighted_tasks
    else weighted_tasks ++ [weighted_unsequenced_tasks]
  let weighted_on_start_tasks :=
    p.sequenced_on_start_tasks.map (fun e => expandBucket u e.2) ++
      [expandBucket u p.unsequenced_on_start_tasks]
  let weighted_on_stop_tasks :=
    p.sequenced_on_stop_tasks.map (fun e => expandBucket u e.2) ++
      [expandBucket u p.unsequenced_on_stop_tasks]
  (weighted_on_start_tasks, main_plan, weighted_on_stop_tasks)

/-! ## Reference construction for the main-phase plan (spec §4.1)

The specification describes the plan directly: compute the gcd `g` of all
task weights, keep the main-phase tasks (neither flag), group them by
sequence in ascending order, expand each group by `weight / g` preserving
declaration order, and put the unsequenced bucket last. -/

/-- Insert a key into a strictly ascending list of keys, keeping it strictly
ascending (duplicates are dropped). -/
def insertKey (k : Nat) : List Nat → List Nat
  | [] => [k]
  | q :: rest =>
    if k = q then q :: rest
    else if k < q then k :: q :: rest
    else q :: insertKey k rest

/-- The distinct sequence values of a task list, in ascending order. -/
def sortedSeqKeys (ts : List GooseTask) : List Nat :=
  ts.foldl (fun ks t => insertKey t.sequence ks) []

/-- Greatest common divisor of a list of weights, as the source folds it:
`u` starts at 0 and each weight is folded with `if u == 0 { w } else gcd`. -/
def gcdFold (ws : List Nat) : Nat :=
  ws.foldl (fun u w => if u = 0 then w else Nat.gcd u w) 0

/-- The main-phase tasks of a set: those with neither `on_start` nor
`on_stop` (spec §3: a task that is neither runs in the main phase). -/
def mainPhaseTasks (task_set : GooseTaskSet) : List GooseTask :=
  task_set.tasks.filter (fun t => !t.on_start && !t.on_stop)

/-- Reference construction of the main-phase plan, following the spec's
words (§4.1): with `g` the gcd of all task weights across the three phases
combined, emit one bucket per sequence group of the main-phase tasks in
ascending sequence order, each task's index repeated `weight / g` times in
declaration order, and append the unsequenced bucket last (when there are
unsequenced main-phase tasks to put in it). -/
def mainSeqBuckets (task_set : GooseTaskSet) : List (List Nat) :=
  let g := gcdFold (task_set.tasks.map (fun t => t.weight))
  let mains := mainPhaseTasks task_set
  (sortedSeqKeys (mains.filter (fun t => 0 < t.sequence))).map
    (fun s => expandBucket g (mains.filter (fun t => t.sequence = s)))

/-- The expanded bucket of the unsequenced main-phase tasks. -/
def mainUnseqBucket (task_set : GooseTaskSet) : List Nat :=
  expandBucket (gcdFold (task_set.tasks.map (fun t => t.weight)))
    ((mainPhaseTasks task_set).filter (fun t => t.sequence = 0))

def refMainPlan (task_set : GooseTaskSet) : List (List Nat) :=
  if (mainUnseqBucket task_set).isEmpty then mainSeqBuckets task_set
  else mainSeqBuckets task_set ++ [mainUnseqBucket task_set]

/-- Spec scenario 1: tasks `[A w=10, B w=2]`, both unsequenced, main phase. -/
def exampleSetAB : GooseTaskSet :=
  ⟨0, [⟨0, 10, 0, false, false⟩, ⟨1, 2, 0, false, false⟩], 1, none, 0, 0⟩

/-- Spec scenario 2: tasks `[A w=1 seq=1, B w=1 seq=2, C w=2]`. -/
def exampleSetABC : GooseTaskSet :=
  ⟨0, [⟨0, 1, 1, false, false⟩, ⟨1, 1, 2, false, false⟩,
       ⟨2, 2, 0, false, false⟩], 1, none, 0, 0⟩

/-- Spec scenario 3: a single task `S` with `on_start` and `on_stop` set. -/
def exampleSetS : GooseTaskSet :=
  ⟨0, [⟨0, 1, 0, true, true⟩], 1, none, 0, 0⟩

example : (weight_tasks exampleSetAB).2.1 = [[0, 0, 0, 0, 0, 1]] := by decide
example : (weight_tasks exampleSetABC).2.1 = [[0], [1], [2, 2]] := by decide
example : weight_tasks exampleSetS = ([[0]], [], [[0]]) := by decide
example : refMainPlan exampleSetAB = [[0, 0, 0, 0, 0, 1]] := by decide

/-! ## Canonical form of the sequence maps -/

lemma insertKey_mem {x k : Nat} : ∀ {ks : List Nat},
    x ∈ insertKey k ks ↔ x = k ∨ x ∈ ks := by
  intro ks
  induction ks with
  | nil => simp [insertKey]
  | cons q rest ih =>
    by_cases h1 : k = q
    · subst h1
      simp [insertKey]
      try tauto
    · by_cases h2 : k < q
      · simp [insertKey, h1, h2]
        try tauto
      · simp [insertKey, h1, h2, List.mem_cons, ih]
        try tauto

lemma insertKey_pairwise {k : Nat} : ∀ {ks : List Nat},
    ks.Pairwise (· < ·) → (insertKey k ks).Pairwise (· < ·) := by
  intro ks
  induction ks with
  | nil => intro _; simp [insertKey]
  | cons q rest ih =>
    intro h
    rcases List.pairwise_cons.mp h with ⟨hq, hrest⟩
    by_cases h1 : k = q
    · subst h1; simpa [insertKey] using h
    · by_cases h2 : k < q
      · simp only [insertKey, h1, h2, if_true, if_false]
        refine List.pairwise_cons.mpr ⟨?_, h⟩
        intro x hx
        rcases List.mem_cons.mp hx with rfl | hx'
        · exact h2
        · exact h2.trans (hq x hx')
      · simp only [insertKey, h1, h2, if_false]
        refine List.pairwise_cons.mpr ⟨?_, ih hrest⟩
        intro x hx
        rcases insertKey_mem.mp hx with rfl | hx'
        · omega
        · exact hq x hx'

lemma seqKeysFold_mem {x : Nat} : ∀ (l : List GooseTask) (ks0 : List Nat),
    x ∈ l.foldl (fun ks t => insertKey t.sequence ks) ks0 ↔
      x ∈ ks0 ∨ ∃ t ∈ l, t.sequence = x := by
  intro l
  induction l with
  | nil => simp
  | cons t rest ih =>
    intro ks0
    simp only [List.foldl_cons, ih, insertKey_mem, List.mem_cons]
    constructor
    · rintro (⟨rfl | h⟩ | h)
      · exact Or.inr ⟨t, by simp⟩
      · exact Or.inl h
      · rcases h with ⟨t', ht', rfl⟩
        exact Or.inr ⟨t', by simp [ht']⟩
    · rintro (h | ⟨t', ht', rfl⟩)
      · exact Or.inl (Or.inr h)
      · rcases ht' with rfl | h'
        · exact Or.inl (Or.inl rfl)
        · exact Or.inr ⟨t', h', rfl⟩

lemma seqKeysFold_pairwise : ∀ (l : List GooseTask) (ks0 : List Nat),
    ks0.Pairwise (· < ·) →
      (l.foldl (fun ks t => insertKey t.sequence ks) ks0).Pairwise (· < ·) := by
  intro l
  induction l with
  | nil => intro ks0 h; simpa using h
  | cons t rest ih =>
    intro ks0 h
    exact ih _ (insertKey_pairwise h)

lemma sortedSeqKeys_pairwise (l : List GooseTask) :
    (sortedSeqKeys l).Pairwise (· < ·) :=
  seqKeysFold_pairwise l [] (by simp)

lemma sortedSeqKeys_mem {x : Nat} {l : List GooseTask} :
    x ∈ sortedSeqKeys l ↔ ∃ t ∈ l, t.sequence = x := by
  unfold sortedSeqKeys
  rw [seqKeysFold_mem]
  simp

lemma sortedSeqKeys_append (l : List GooseTask) (t : GooseTask) :
    sortedSeqKeys (l ++ [t]) = insertKey t.sequence (sortedSeqKeys l) := by
  unfold sortedSeqKeys
  rw [List.foldl_append]
  rfl

/-- Insertion into the canonical image of a strictly ascending key list:
`seqInsert` appends to the matching entry, or inserts a new singleton entry
at its sorted position. -/
lemma seqInsert_canonical (k : Nat) (t : GooseTask) :
    ∀ (ks : List Nat) (f : Nat → List GooseTask),
    ks.Pairwise (· < ·) → (k ∉ ks → f k = []) →
    seqInsert k t (ks.map (fun s => (s, f s))) =
      (insertKey k ks).map
        (fun s => (s, if s = k then f s ++ [t] else f s)) := by
  intro ks
  induction ks with
  | nil =>
    intro f _ hk
    simp [seqInsert, insertKey, hk (by simp)]
  | cons q rest ih =>
    intro f hp hk
    rcases List.pairwise_cons.mp hp with ⟨hq, hrest⟩
    by_cases h1 : k = q
    · subst h1
      rw [show insertKey k (k :: rest) = k :: rest by simp [insertKey]]
      rw [show seqInsert k t ((k :: rest).map (fun s => (s, f s))) =
            (k, f k ++ [t]) :: rest.map (fun s => (s, f s)) by simp [seqInsert]]
      simp only [List.map_cons, if_pos rfl]
      refine congrArg (fun z => (k, f k ++ [t]) :: z) ?_
      refine (List.map_congr_left ?_).symm
      intro s hs
      have hlt : k < s := hq s hs
      simp [Nat.ne_of_gt hlt]
    · by_cases h2 : k < q
      · have hknot : k ∉ q :: rest := by
          intro hmem
          rcases List.mem_cons.mp hmem with rfl | h'
          · exact h1 rfl
          · exact absurd (h2.trans (hq k h')) (lt_irrefl k)
        simp only [List.map_cons, seqInsert, if_neg h1, if_pos h2, insertKey]
        rw [hk hknot]
        refine congrArg (fun z => (k, [t]) :: z) ?_
        have hqne : ¬ q = k := fun h => h1 h.symm
        simp only [List.map_cons, if_neg hqne]
        refine congrArg (fun z => (q, f q) :: z) ?_
        refine (List.map_congr_left ?_).symm
        intro s hs
        have : q < s := hq s hs
        have : ¬ s = k := by omega
        simp [this]
      · have hqne : ¬ q = k := fun h => h1 h.symm
        simp only [List.map_cons, seqInsert, if_neg h1, if_neg h2, insertKey]
        rw [ih f hrest (fun hnk => hk (by simp [hnk, h1]))]
        simp [hqne]

/-- The `BTreeMap` fold of `weight_tasks` equals its canonical form: the
entries are the distinct sequence values in ascending order, each carrying
the tasks of that sequence in declaration order. -/
lemma seqFold_eq : ∀ (l : List GooseTask),
    l.foldl (fun m t => seqInsert t.sequence t m) [] =
      (sortedSeqKeys l).map
        (fun s => (s, l.filter (fun t => t.sequence == s))) := by
  intro l
  induction l using List.reverseRecOn with
  | nil => simp [sortedSeqKeys]
  | append_singleton l t ih =>
    rw [List.foldl_append, List.foldl_cons, List.foldl_nil, ih,
      sortedSeqKeys_append,
      seqInsert_canonical t.sequence t (sortedSeqKeys l) _
        (sortedSeqKeys_pairwise l)
        (fun hnk => List.filter_eq_nil_iff.mpr (fun a ha => by
          simp only [beq_iff_eq]
          intro heq
          exact hnk (sortedSeqKeys_mem.mpr ⟨a, ha, heq⟩)))]
    refine List.map_congr_left ?_
    intro s _
    by_cases hs : s = t.sequence
    · subst hs
      simp [List.filter_append]
    · have : ¬ t.sequence = s := fun h => hs h.symm
      simp [List.filter_append, this, hs]

/-! ## Projections of the partition fold -/

lemma partitionStep_seq_main (p : TaskPartition) (t : GooseTask) :
    (partitionStep p t).sequenced_tasks =
      if (decide (0 < t.sequence) && (!t.on_start && !t.on_stop)) = true then
        seqInsert t.sequence t p.sequenced_tasks
      else p.sequenced_tasks := by
  by_cases hs : 0 < t.sequence <;> by_cases ha : t.on_start = true <;>
    by_cases hb : t.on_stop = true <;>
      simp [partitionStep, hs, ha, hb]

lemma partitionStep_seq_start (p : TaskPartition) (t : GooseTask) :
    (partitionStep p t).sequenced_on_start_tasks =
      if (decide (0 < t.sequence) && t.on_start) = true then
        seqInsert t.sequence t p.sequenced_on_start_tasks
      else p.sequenced_on_start_tasks := by
  by_cases hs : 0 < t.sequence <;> by_cases ha : t.on_start = true <;>
    by_cases hb : t.on_stop = true <;>
      simp [partitionStep, hs, ha, hb]

lemma partitionStep_seq_stop (p : TaskPartition) (t : GooseTask) :
    (partitionStep p t).sequenced_on_stop_tasks =
      if (decide (0 < t.sequence) && t.on_stop) = true then
        seqInsert t.sequence t p.sequenced_on_stop_tasks
      else p.sequenced_on_stop_tasks := by
  by_cases hs : 0 < t.sequence <;> by_cases ha : t.on_start = true <;>
    by_cases hb : t.on_stop = true <;>
      simp [partitionStep, hs, ha, hb]

lemma partitionStep_unseq_main (p : TaskPartition) (t : GooseTask) :
    (partitionStep p t).unsequenced_tasks =
      if (decide (t.sequence = 0) && (!t.on_start && !t.on_stop)) = true then
        p.unsequenced_tasks ++ [t]
      else p.unsequenced_tasks := by
  by_cases hs : t.sequence = 0
  · have hpos : ¬ 0 < t.sequence := by omega
    by_cases ha : t.on_start = true <;> by_cases hb : t.on_stop = true <;>
      simp [partitionStep, hpos, hs, ha, hb]
  · have hpos : 0 < t.sequence := by omega
    by_cases ha : t.on_start = true <;> by_cases hb : t.on_stop = true <;>
      simp [partitionStep, hpos, hs, ha, hb]

lemma partitionStep_unseq_start (p : TaskPartition) (t : GooseTask) :
    (partitionStep p t).unsequenced_on_start_tasks =
      if (decide (t.sequence = 0) && t.on_start) = true then
        p.unsequenced_on_start_tasks ++ [t]
      else p.unsequenced_on_start_tasks := by
  by_cases hs : t.sequence = 0
  · have hpos : ¬ 0 < t.sequence := by omega
    by_cases ha : t.on_start = true <;> by_cases hb : t.on_stop = true <;>
      simp [partitionStep, hpos, hs, ha, hb]
  · have hpos : 0 < t.sequence := by omega
    by_cases ha : t.on_start = true <;> by_cases hb : t.on_stop = true <;>
      simp [partitionStep, hpos, hs, ha, hb]

lemma partitionStep_unseq_stop (p : TaskPartition) (t : GooseTask) :
    (partitionStep p t).unsequenced_on_stop_tasks =
      if (decide (t.sequence = 0) && t.on_stop) = true then
        p.unsequenced_on_stop_tasks ++ [t]
      else p.unsequenced_on_stop_tasks := by
  by_cases hs : t.sequence = 0
  · have hpos : ¬ 0 < t.sequence := by omega
    by_cases ha : t.on_start = true <;> by_cases hb : t.on_stop = true <;>
      simp [partitionStep, hpos, hs, ha, hb]
  · have hpos : 0 < t.sequence := by omega
    by_cases ha : t.on_start = true <;> by_cases hb : t.on_stop = true <;>
      simp [partitionStep, hpos, hs, ha, hb]

lemma partitionStep_u (p : TaskPartition) (t : GooseTask) :
    (partitionStep p t).u =
      if p.u = 0 then t.weight else Nat.gcd p.u t.weight := by
  by_cases hs : 0 < t.sequence <;> by_cases ha : t.on_start = true <;>
    by_cases hb : t.on_stop = true <;>
      simp [partitionStep, hs, ha, hb]

/-- A fold that conditionally inserts is the unconditional fold over the
filtered list. -/
lemma condFold_eq_filterFold {β : Type} (p : GooseTask → Bool)
    (g : β → GooseTask → β) :
    ∀ (l : List GooseTask) (m : β),
      l.foldl (fun m t => if p t = true then g m t else m) m =
        (l.filter p).foldl g m := by
  intro l
  induction l with
  | nil => intro m; rfl
  | cons t rest ih =>
    intro m
    by_cases hp : p t = true <;> simp [List.filter_cons, hp, ih]

lemma foldPartition_seq_main (l : List GooseTask) : ∀ (p : TaskPartition),
    (l.foldl partitionStep p).sequenced_tasks =
      (l.filter (fun t => decide (0 < t.sequence) && (!t.on_start && !t.on_stop))).foldl
        (fun m t => seqInsert t.sequence t m) p.sequenced_tasks := by
  induction l with
  | nil => intro p; rfl
  | cons t rest ih =>
    intro p
    rw [List.foldl_cons, ih, List.filter_cons, partitionStep_seq_main]
    by_cases hp : (decide (0 < t.sequence) && (!t.on_start && !t.on_stop)) = true <;>
      simp [hp]

lemma foldPartition_seq_start (l : List GooseTask) : ∀ (p : TaskPartition),
    (l.foldl partitionStep p).sequenced_on_start_tasks =
      (l.filter (fun t => decide (0 < t.sequence) && t.on_start)).foldl
        (fun m t => seqInsert t.sequence t m) p.sequenced_on_start_tasks := by
  induction l with
  | nil => intro p; rfl
  | cons t rest ih =>
    intro p
    rw [List.foldl_cons, ih, List.filter_cons, partitionStep_seq_start]
    by_cases hp : (decide (0 < t.sequence) && t.on_start) = true <;> simp [hp]

lemma foldPartition_seq_stop (l : List GooseTask) : ∀ (p : TaskPartition),
    (l.foldl partitionStep p).sequenced_on_stop_tasks =
      (l.filter (fun t => decide (0 < t.sequence) && t.on_stop)).foldl
        (fun m t => seqInsert t.sequence t m) p.sequenced_on_stop_tasks := by
  induction l with
  | nil => intro p; rfl
  | cons t rest ih =>
    intro p
    rw [List.foldl_cons, ih, List.filter_cons, partitionStep_seq_stop]
    by_cases hp : (decide (0 < t.sequence) && t.on_stop) = true <;> simp [hp]

lemma foldPartition_unseq_main (l : List GooseTask) : ∀ (p : TaskPartition),
    (l.foldl partitionStep p).unsequenced_tasks =
      p.unsequenced_tasks ++
        l.filter (fun t => decide (t.sequence = 0) && (!t.on_start && !t.on_stop)) := by
  induction l with
  | nil => intro p; simp
  | cons t rest ih =>
    intro p
    rw [List.foldl_cons, ih, List.filter_cons, partitionStep_unseq_main]
    by_cases hp : (decide (t.sequence = 0) && (!t.on_start && !t.on_stop)) = true <;>
      simp [hp]

lemma foldPartition_unseq_start (l : List GooseTask) : ∀ (p : TaskPartition),
    (l.foldl partitionStep p).unsequenced_on_start_tasks =
      p.unsequenced_on_start_tasks ++
        l.filter (fun t => decide (t.sequence = 0) && t.on_start) := by
  induction l with
  | nil => intro p; simp
  | cons t rest ih =>
    intro p
    rw [List.foldl_cons, ih, List.filter_cons, partitionStep_unseq_start]
    by_cases hp : (decide (t.sequence = 0) && t.on_start) = true <;> simp [hp]

lemma foldPartition_unseq_stop (l : List GooseTask) : ∀ (p : TaskPartition),
    (l.foldl partitionStep p).unsequenced_on_stop_tasks =
      p.unsequenced_on_stop_tasks ++
        l.filter (fun t => decide (t.sequence = 0) && t.on_stop) := by
  induction l with
  | nil => intro p; simp
  | cons t rest ih =>
    intro p
    rw [List.foldl_cons, ih, List.filter_cons, partitionStep_unseq_stop]
    by_cases hp : (decide (t.sequence = 0) && t.on_stop) = true <;> simp [hp]

lemma foldPartition_u (l : List GooseTask) : ∀ (p : TaskPartition),
    (l.foldl partitionStep p).u =
      l.foldl (fun u t => if u = 0 then t.weight else Nat.gcd u t.weight) p.u := by
  induction l with
  | nil => intro p; rfl
  | cons t rest ih =>
    intro p
    rw [List.foldl_cons, ih, List.foldl_cons, partitionStep_u]

/-- The source's gcd accumulator over the whole task list equals `gcdFold`
of the task weights. -/
lemma foldPartition_u_gcdFold (l : List GooseTask) :
    (l.foldl partitionStep TaskPartition.init).u =
      gcdFold (l.map (fun t => t.weight)) := by
  rw [foldPartition_u, gcdFold, List.foldl_map]
  rfl

/-! ## The main-phase plan equals the reference construction -/

lemma weight_tasks_main_eq (ts : GooseTaskSet) :
    (weight_tasks ts).2.1 = refMainPlan ts := by
  have hinit_seq : TaskPartition.init.sequenced_tasks = [] := rfl
  have hinit_unseq : TaskPartition.init.unsequenced_tasks = [] := rfl
  have hseq := foldPartition_seq_main ts.tasks TaskPartition.init
  rw [hinit_seq, seqFold_eq] at hseq
  have hunseq := foldPartition_unseq_main ts.tasks TaskPartition.init
  rw [hinit_unseq, List.nil_append] at hunseq
  simp only [weight_tasks, refMainPlan, mainSeqBuckets, mainUnseqBucket,
    mainPhaseTasks, hseq, hunseq,
    foldPartition_u_gcdFold, List.map_map, List.filter_filter]
  set g := gcdFold (ts.tasks.map (fun t => t.weight)) with hg
  have hbuckets :
      (sortedSeqKeys (ts.tasks.filter
          (fun t => decide (0 < t.sequence) && (!t.on_start && !t.on_stop)))).map
        ((fun e => expandBucket g e.2) ∘
          (fun s => (s, ts.tasks.filter
            (fun a => a.sequence == s &&
              (decide (0 < a.sequence) && (!a.on_start && !a.on_stop)))))) =
      (sortedSeqKeys (ts.tasks.filter
          (fun t => decide (0 < t.sequence) && (!t.on_start && !t.on_stop)))).map
        (fun s => expandBucket g (ts.tasks.filter
          (fun t => decide (t.sequence = s) && (!t.on_start && !t.on_stop)))) := by
    refine List.map_congr_left ?_
    intro s hs
    rcases sortedSeqKeys_mem.mp hs with ⟨t0, ht0, hts⟩
    rcases List.mem_filter.mp ht0 with ⟨-, hpred⟩
    have hspos : 0 < s := by
      have := (Bool.and_eq_true _ _).mp hpred
      have h1 : 0 < t0.sequence := of_decide_eq_true this.1
      omega
    simp only [Function.comp]
    refine congrArg (expandBucket g) ?_
    refine List.filter_congr ?_
    intro a _
    by_cases ha : a.sequence = s
    · have hapos : 0 < a.sequence := by omega
      simp [ha, hapos, hspos]
    · simp [ha, fun h => ha (by simpa using h)]
  rw [hbuckets]

/-- C1: for every TaskSet, the main-phase plan built by `weight_tasks`
equals the reference construction from the spec (`refMainPlan`), and the two
worked examples of the spec compute to the listed plans: `[A w=10, B w=2]`
both unsequenced gives `[[A,A,A,A,A,B]]`, and `[A w=1 seq=1, B w=1 seq=2,
C w=2]` gives `[[A],[B],[C,C]]`. -/
theorem weight_tasks_main_plan_matches_spec :
    (∀ ts : GooseTaskSet, (weight_tasks ts).2.1 = refMainPlan ts) ∧
    (weight_tasks exampleSetAB).2.1 = [[0, 0, 0, 0, 0, 1]] ∧
    (weight_tasks exampleSetABC).2.1 = [[0], [1], [2, 2]] :=
  ⟨weight_tasks_main_eq, by decide, by decide⟩

/-! ## Divisibility facts about the gcd fold -/

lemma foldl_gcd_dvd_init : ∀ (ws : List Nat) (u : Nat),
    ws.foldl Nat.gcd u ∣ u := by
  intro ws
  induction ws with
  | nil => intro u; simp
  | cons w rest ih =>
    intro u
    exact dvd_trans (ih (Nat.gcd u w)) (Nat.gcd_dvd_left u w)

lemma foldl_gcd_dvd_mem : ∀ (ws : List Nat) (u w : Nat), w ∈ ws →
    ws.foldl Nat.gcd u ∣ w := by
  intro ws
  induction ws with
  | nil => intro u w h; cases h
  | cons w0 rest ih =>
    intro u w h
    rcases List.mem_cons.mp h with rfl | h'
    · exact dvd_trans (foldl_gcd_dvd_init rest (Nat.gcd u w))
        (Nat.gcd_dvd_right u w)
    · exact ih _ w h'

lemma gcdFold_eq_foldl_gcd (ws : List Nat) :
    gcdFold ws = ws.foldl Nat.gcd 0 := by
  unfold gcdFold
  refine congrFun (congrFun (congrArg List.foldl ?_) 0) ws
  funext u w
  by_cases hu : u = 0 <;> simp [hu]

/-- The gcd computed by `weight_tasks` divides every task weight. -/
lemma gcdFold_dvd {w : Nat} {ws : List Nat} (h : w ∈ ws) : gcdFold ws ∣ w := by
  rw [gcdFold_eq_foldl_gcd]
  exact foldl_gcd_dvd_mem ws 0 w h

/-- When a task's weight is positive, its gcd-reduced repetition count is
positive. -/
lemma weight_div_gcd_pos {w : Nat} {ws : List Nat} (hmem : w ∈ ws)
    (hw : 0 < w) : 0 < w / gcdFold ws := by
  have hdvd := gcdFold_dvd hmem
  have hne : gcdFold ws ≠ 0 := by
    intro h0
    rw [h0] at hdvd
    have hw0 : w = 0 := Nat.eq_zero_of_zero_dvd hdvd
    omega
  exact Nat.div_pos (Nat.le_of_dvd hw hdvd) (Nat.pos_of_ne_zero hne)

/-! ## Membership in the expanded buckets and plans -/

lemma expandBucket_foldl_mem (u : Nat) : ∀ (l : List GooseTask) (acc : List Nat)
    (x : Nat), x ∈ l.foldl
      (fun acc t => acc ++ List.replicate (t.weight / u) t.tasks_index) acc ↔
      x ∈ acc ∨ ∃ t ∈ l, t.tasks_index = x ∧ 0 < t.weight / u := by
  intro l
  induction l with
  | nil => intro acc x; simp
  | cons t rest ih =>
    intro acc x
    rw [List.foldl_cons, ih]
    simp only [List.mem_append, List.mem_replicate]
    constructor
    · rintro ((h | ⟨hne, rfl⟩) | ⟨t', ht', hx⟩)
      · exact Or.inl h
      · exact Or.inr ⟨t, by simp, rfl, Nat.pos_of_ne_zero hne⟩
      · exact Or.inr ⟨t', List.mem_cons_of_mem t ht', hx⟩
    · rintro (h | ⟨t', ht', hx, hpos⟩)
      · exact Or.inl (Or.inl h)
      · rcases List.mem_cons.mp ht' with rfl | h'
        · exact Or.inl (Or.inr ⟨Nat.pos_iff_ne_zero.mp hpos, hx.symm⟩)
        · exact Or.inr ⟨t', h', hx, hpos⟩

lemma expandBucket_mem {u : Nat} {l : List GooseTask} {x : Nat} :
    x ∈ expandBucket u l ↔ ∃ t ∈ l, t.tasks_index = x ∧ 0 < t.weight / u := by
  unfold expandBucket
  rw [expandBucket_foldl_mem]
  simp

/-- Membership in the flattened on-start plan: exactly the indices of
`on_start` tasks with a positive reduced weight. -/
lemma weight_tasks_start_join_mem (ts : GooseTaskSet) (x : Nat) :
    x ∈ (weight_tasks ts).1.flatten ↔
      ∃ t ∈ ts.tasks, t.on_start = true ∧ t.tasks_index = x ∧
        0 < t.weight / gcdFold (ts.tasks.map (fun t => t.weight)) := by
  have hinit_seq : TaskPartition.init.sequenced_on_start_tasks = [] := rfl
  have hinit_unseq : TaskPartition.init.unsequenced_on_start_tasks = [] := rfl
  have hseq := foldPartition_seq_start ts.tasks TaskPartition.init
  rw [hinit_seq, seqFold_eq] at hseq
  have hunseq := foldPartition_unseq_start ts.tasks TaskPartition.init
  rw [hinit_unseq, List.nil_append] at hunseq
  simp only [weight_tasks, hseq, hunseq, foldPartition_u_gcdFold,
    List.map_map, List.filter_filter]
  rw [List.mem_flatten]
  constructor
  · rintro ⟨b, hb, hxb⟩
    rcases List.mem_append.mp hb with hb' | hb'
    · rcases List.mem_map.mp hb' with ⟨s, hs, rfl⟩
      simp only [Function.comp] at hxb
      rcases expandBucket_mem.mp hxb with ⟨t, ht, hx, hpos⟩
      rcases List.mem_filter.mp ht with ⟨htmem, hpred⟩
      have hstart : t.on_start = true := by
        rcases (Bool.and_eq_true _ _).mp hpred with ⟨-, h2⟩
        exact ((Bool.and_eq_true _ _).mp h2).2
      exact ⟨t, htmem, hstart, hx, hpos⟩
    · have hb0 : b = expandBucket (gcdFold (ts.tasks.map (fun t => t.weight)))
          (ts.tasks.filter (fun t => decide (t.sequence = 0) && t.on_start)) := by
        simpa using hb'
      subst hb0
      rcases expandBucket_mem.mp hxb with ⟨t, ht, hx, hpos⟩
      rcases List.mem_filter.mp ht with ⟨htmem, hpred⟩
      exact ⟨t, htmem, ((Bool.and_eq_true _ _).mp hpred).2, hx, hpos⟩
  · rintro ⟨t, htmem, hstart, hx, hpos⟩
    by_cases hseq0 : t.sequence = 0
    · refine ⟨expandBucket (gcdFold (ts.tasks.map (fun t => t.weight)))
        (ts.tasks.filter (fun t => decide (t.sequence = 0) && t.on_start)),
        List.mem_append.mpr (Or.inr (by simp)), ?_⟩
      exact expandBucket_mem.mpr
        ⟨t, List.mem_filter.mpr ⟨htmem, by simp [hseq0, hstart]⟩, hx, hpos⟩
    · have hpos' : 0 < t.sequence := Nat.pos_of_ne_zero hseq0
      refine ⟨expandBucket (gcdFold (ts.tasks.map (fun t => t.weight)))
        (ts.tasks.filter (fun a => a.sequence == t.sequence &&
          (decide (0 < a.sequence) && a.on_start))), ?_, ?_⟩
      · refine List.mem_append.mpr (Or.inl ?_)
        refine List.mem_map.mpr ⟨t.sequence, ?_, rfl⟩
        exact sortedSeqKeys_mem.mpr
          ⟨t, List.mem_filter.mpr ⟨htmem, by simp [hpos', hstart]⟩, rfl⟩
      · exact expandBucket_mem.mpr
          ⟨t, List.mem_filter.mpr ⟨htmem, by simp [hpos', hstart]⟩, hx, hpos⟩

/-- Membership in the flattened on-stop plan: exactly the indices of
`on_stop` tasks with a positive reduced weight. -/
lemma weight_tasks_stop_join_mem (ts : GooseTaskSet) (x : Nat) :
    x ∈ (weight_tasks ts).2.2.flatten ↔
      ∃ t ∈ ts.tasks, t.on_stop = true ∧ t.tasks_index = x ∧
        0 < t.weight / gcdFold (ts.tasks.map (fun t => t.weight)) := by
  have hinit_seq : TaskPartition.init.sequenced_on_stop_tasks = [] := rfl
  have hinit_unseq : TaskPartition.init.unsequenced_on_stop_tasks = [] := rfl
  have hseq := foldPartition_seq_stop ts.tasks TaskPartition.init
  rw [hinit_seq, seqFold_eq] at hseq
  have hunseq := foldPartition_unseq_stop ts.tasks TaskPartition.init
  rw [hinit_unseq, List.nil_append] at hunseq
  simp only [weight_tasks, hseq, hunseq, foldPartition_u_gcdFold,
    List.map_map, List.filter_filter]
  rw [List.mem_flatten]
  constructor
  · rintro ⟨b, hb, hxb⟩
    rcases List.mem_append.mp hb with hb' | hb'
    · rcases List.mem_map.mp hb' with ⟨s, hs, rfl⟩
      simp only [Function.comp] at hxb
      rcases expandBucket_mem.mp hxb with ⟨t, ht, hx, hpos⟩
      rcases List.mem_filter.mp ht with ⟨htmem, hpred⟩
      have hstop : t.on_stop = true := by
        rcases (Bool.and_eq_true _ _).mp hpred with ⟨-, h2⟩
        exact ((Bool.and_eq_true _ _).mp h2).2
      exact ⟨t, htmem, hstop, hx, hpos⟩
    · have hb0 : b = expandBucket (gcdFold (ts.tasks.map (fun t => t.weight)))
          (ts.tasks.filter (fun t => decide (t.sequence = 0) && t.on_stop)) := by
        simpa using hb'
      subst hb0
      rcases expandBucket_mem.mp hxb with ⟨t, ht, hx, hpos⟩
      rcases List.mem_filter.mp ht with ⟨htmem, hpred⟩
      exact ⟨t, htmem, ((Bool.and_eq_true _ _).mp hpred).2, hx, hpos⟩
  · rintro ⟨t, htmem, hstop, hx, hpos⟩
    by_cases hseq0 : t.sequence = 0
    · refine ⟨expandBucket (gcdFold (ts.tasks.map (fun t => t.weight)))
        (ts.tasks.filter (fun t => decide (t.sequence = 0) && t.on_stop)),
        List.mem_append.mpr (Or.inr (by simp)), ?_⟩
      exact expandBucket_mem.mpr
        ⟨t, List.mem_filter.mpr ⟨htmem, by simp [hseq0, hstop]⟩, hx, hpos⟩
    · have hpos' : 0 < t.sequence := Nat.pos_of_ne_zero hseq0
      refine ⟨expandBucket (gcdFold (ts.tasks.map (fun t => t.weight)))
        (ts.tasks.filter (fun a => a.sequence == t.sequence &&
          (decide (0 < a.sequence) && a.on_stop))), ?_, ?_⟩
      · refine List.mem_append.mpr (Or.inl ?_)
        refine List.mem_map.mpr ⟨t.sequence, ?_, rfl⟩
        exact sortedSeqKeys_mem.mpr
          ⟨t, List.mem_filter.mpr ⟨htmem, by simp [hpos', hstop]⟩, rfl⟩
      · exact expandBucket_mem.mpr
          ⟨t, List.mem_filter.mpr ⟨htmem, by simp [hpos', hstop]⟩, hx, hpos⟩

/-- Membership in the flattened main plan: exactly the indices of tasks with
neither flag and a positive reduced weight. -/
lemma weight_tasks_main_join_mem (ts : GooseTaskSet) (x : Nat) :
    x ∈ (weight_tasks ts).2.1.flatten ↔
      ∃ t ∈ ts.tasks, t.on_start = false ∧ t.on_stop = false ∧
        t.tasks_index = x ∧
        0 < t.weight / gcdFold (ts.tasks.map (fun t => t.weight)) := by
  rw [weight_tasks_main_eq, refMainPlan]
  have hflat : ∀ y, y ∈ (if (mainUnseqBucket ts).isEmpty then mainSeqBuckets ts
      else mainSeqBuckets ts ++ [mainUnseqBucket ts]).flatten ↔
      y ∈ (mainSeqBuckets ts).flatten ∨ y ∈ mainUnseqBucket ts := by
    intro y
    by_cases hc : (mainUnseqBucket ts).isEmpty = true
    · rw [if_pos hc]
      have : mainUnseqBucket ts = [] := by simpa using hc
      simp [this]
    · rw [if_neg hc]
      simp [List.mem_flatten]
      try tauto
  rw [hflat]
  simp only [mainSeqBuckets, mainUnseqBucket, mainPhaseTasks, List.mem_flatten]
  constructor
  · rintro (⟨b, hb, hxb⟩ | hxu)
    · rcases List.mem_map.mp hb with ⟨s, hs, rfl⟩
      rcases expandBucket_mem.mp hxb with ⟨t, ht, hx, hpos⟩
      rcases List.mem_filter.mp ht with ⟨ht', -⟩
      rcases List.mem_filter.mp ht' with ⟨htmem, hpred⟩
      rcases (Bool.and_eq_true _ _).mp hpred with ⟨h1, h2⟩
      exact ⟨t, htmem, by simpa using h1, by simpa using h2, hx, hpos⟩
    · rcases expandBucket_mem.mp hxu with ⟨t, ht, hx, hpos⟩
      rcases List.mem_filter.mp ht with ⟨ht', -⟩
      rcases List.mem_filter.mp ht' with ⟨htmem, hpred⟩
      rcases (Bool.and_eq_true _ _).mp hpred with ⟨h1, h2⟩
      exact ⟨t, htmem, by simpa using h1, by simpa using h2, hx, hpos⟩
  · rintro ⟨t, htmem, hstart, hstop, hx, hpos⟩
    have hflag : (!t.on_start && !t.on_stop) = true := by simp [hstart, hstop]
    by_cases hseq0 : t.sequence = 0
    · refine Or.inr (expandBucket_mem.mpr ⟨t, ?_, hx, hpos⟩)
      exact List.mem_filter.mpr
        ⟨List.mem_filter.mpr ⟨htmem, hflag⟩, by simp [hseq0]⟩
    · have hpos' : 0 < t.sequence := Nat.pos_of_ne_zero hseq0
      refine Or.inl ⟨expandBucket (gcdFold (ts.tasks.map (fun t => t.weight)))
        ((ts.tasks.filter (fun t => !t.on_start && !t.on_stop)).filter
          (fun a => a.sequence = t.sequence)), ?_, ?_⟩
      · refine List.mem_map.mpr ⟨t.sequence, ?_, rfl⟩
        refine sortedSeqKeys_mem.mpr ⟨t, ?_, rfl⟩
        exact List.mem_filter.mpr
          ⟨List.mem_filter.mpr ⟨htmem, hflag⟩, by simp [hpos']⟩
      · refine expandBucket_mem.mpr ⟨t, ?_, hx, hpos⟩
        exact List.mem_filter.mpr
          ⟨List.mem_filter.mpr ⟨htmem, hflag⟩, by simp⟩

/-- Indices are unique, so equal indices identify equal tasks. -/
lemma nodup_map_inj {l : List GooseTask}
    (h : (l.map (fun t => t.tasks_index)).Nodup)
    {a b : GooseTask} (ha : a ∈ l) (hb : b ∈ l)
    (hab : a.tasks_index = b.tasks_index) : a = b :=
  List.inj_on_of_nodup_map h ha hb hab

/-- C5: `weight_tasks` on the single both-flag task `S` yields
`on_start_plan = [[S]]`, `on_stop_plan = [[S]]` and an empty main plan; in
general a task with both flags appears in both the on-start and on-stop
plans, and a task with neither flag appears in the main plan and (with
distinct task indices) in neither of the other two. -/
theorem weight_tasks_phase_flag_placement :
    weight_tasks exampleSetS = ([[0]], [], [[0]]) ∧
    (∀ ts : GooseTaskSet, ∀ t ∈ ts.tasks, 0 < t.weight →
      (t.on_start = true → t.on_stop = true →
        t.tasks_index ∈ (weight_tasks ts).1.flatten ∧
        t.tasks_index ∈ (weight_tasks ts).2.2.flatten) ∧
      ((ts.tasks.map (fun t => t.tasks_index)).Nodup →
        t.on_start = false → t.on_stop = false →
        t.tasks_index ∈ (weight_tasks ts).2.1.flatten ∧
        t.tasks_index ∉ (weight_tasks ts).1.flatten ∧
        t.tasks_index ∉ (weight_tasks ts).2.2.flatten)) := by
  refine ⟨by decide, ?_⟩
  intro ts t htmem hw
  have hpos : 0 < t.weight / gcdFold (ts.tasks.map (fun t => t.weight)) :=
    weight_div_gcd_pos (List.mem_map.mpr ⟨t, htmem, rfl⟩) hw
  constructor
  · intro hstart hstop
    exact ⟨(weight_tasks_start_join_mem ts _).mpr ⟨t, htmem, hstart, rfl, hpos⟩,
      (weight_tasks_stop_join_mem ts _).mpr ⟨t, htmem, hstop, rfl, hpos⟩⟩
  · intro hnd hstart hstop
    refine ⟨(weight_tasks_main_join_mem ts _).mpr
      ⟨t, htmem, hstart, hstop, rfl, hpos⟩, ?_, ?_⟩
    · intro hmem
      rcases (weight_tasks_start_join_mem ts _).mp hmem with ⟨t', ht', hs', hx', -⟩
      have heq : t' = t := nodup_map_inj hnd ht' htmem hx'
      simp [heq, hstart] at hs'
    · intro hmem
      rcases (weight_tasks_stop_join_mem ts _).mp hmem with ⟨t', ht', hs', hx', -⟩
      have heq : t' = t := nodup_map_inj hnd ht' htmem hx'
      simp [heq, hstop] at hs'

/-- Witness for C5, applying the general statement to the neither-flag task
`A` of the `[A w=10, B w=2]` example. -/
theorem weight_tasks_phase_flag_placement_witness :
    (⟨0, 10, 0, false, false⟩ : GooseTask) ∈ exampleSetAB.tasks ∧
    (0 ∈ (weight_tasks exampleSetAB).2.1.flatten ∧
      0 ∉ (weight_tasks exampleSetAB).1.flatten ∧
      0 ∉ (weight_tasks exampleSetAB).2.2.flatten) :=
  ⟨by decide,
    (weight_tasks_phase_flag_placement.2 exampleSetAB
      ⟨0, 10, 0, false, false⟩ (by decide) (by decide)).2 (by decide) rfl rfl⟩

/-! ## C10: the trailing unsequenced bucket -/

/-- The expanded bucket of unsequenced `on_start` tasks. -/
def startUnseqBucket (ts : GooseTaskSet) : List Nat :=
  expandBucket (gcdFold (ts.tasks.map (fun t => t.weight)))
    (ts.tasks.filter (fun t => decide (t.sequence = 0) && t.on_start))

/-- The expanded bucket of unsequenced `on_stop` tasks. -/
def stopUnseqBucket (ts : GooseTaskSet) : List Nat :=
  expandBucket (gcdFold (ts.tasks.map (fun t => t.weight)))
    (ts.tasks.filter (fun t => decide (t.sequence = 0) && t.on_stop))

/-- A task set with one sequenced on-start task and one plain main task. -/
def exampleSetStartSeq : GooseTaskSet :=
  ⟨0, [⟨0, 1, 1, true, false⟩, ⟨1, 1, 0, false, false⟩], 1, none, 0, 0⟩

/-- A task set whose only task is sequenced and main-phase. -/
def exampleSetMainSeq : GooseTaskSet :=
  ⟨0, [⟨0, 1, 1, false, false⟩], 1, none, 0, 0⟩

/-- C10: the on-start and on-stop plans always end with the unsequenced
bucket, even when it is empty (so a set with no unsequenced on-start tasks
gets a trailing `[]`, and a set with no on-start tasks at all gets `[[]]`),
whereas the main plan omits its unsequenced bucket when that bucket is
empty. -/
theorem plans_trailing_unsequenced_bucket :
    (∀ ts : GooseTaskSet,
      (∃ front, (weight_tasks ts).1 = front ++ [startUnseqBucket ts]) ∧
      (∃ front, (weight_tasks ts).2.2 = front ++ [stopUnseqBucket ts]) ∧
      (mainUnseqBucket ts = [] →
        (weight_tasks ts).2.1 = mainSeqBuckets ts) ∧
      (mainUnseqBucket ts ≠ [] →
        (weight_tasks ts).2.1 = mainSeqBuckets ts ++ [mainUnseqBucket ts])) ∧
    (weight_tasks exampleSetStartSeq).1 = [[0], []] ∧
    (weight_tasks exampleSetAB).1 = [[]] ∧
    (weight_tasks exampleSetMainSeq).2.1 = [[0]] := by
  refine ⟨?_, by decide, by decide, by decide⟩
  intro ts
  refine ⟨?_, ?_, ?_, ?_⟩
  · have h2 : (ts.tasks.foldl partitionStep TaskPartition.init).unsequenced_on_start_tasks =
        ts.tasks.filter (fun t => decide (t.sequence = 0) && t.on_start) := by
      rw [foldPartition_unseq_start]
      rfl
    refine ⟨(ts.tasks.foldl partitionStep TaskPartition.init).sequenced_on_start_tasks.map
      (fun e => expandBucket (gcdFold (ts.tasks.map (fun t => t.weight))) e.2), ?_⟩
    simp only [weight_tasks, foldPartition_u_gcdFold, startUnseqBucket, h2]
  · have h2 : (ts.tasks.foldl partitionStep TaskPartition.init).unsequenced_on_stop_tasks =
        ts.tasks.filter (fun t => decide (t.sequence = 0) && t.on_stop) := by
      rw [foldPartition_unseq_stop]
      rfl
    refine ⟨(ts.tasks.foldl partitionStep TaskPartition.init).sequenced_on_stop_tasks.map
      (fun e => expandBucket (gcdFold (ts.tasks.map (fun t => t.weight))) e.2), ?_⟩
    simp only [weight_tasks, foldPartition_u_gcdFold, stopUnseqBucket, h2]
  · intro h
    rw [weight_tasks_main_eq, refMainPlan]
    simp [h]
  · intro h
    rw [weight_tasks_main_eq, refMainPlan]
    have : (mainUnseqBucket ts).isEmpty = false := by
      simp [List.isEmpty_iff, h]
    simp [this]

/-- Witness for C10, applying the general statement at the sequenced-only
example set (whose unsequenced main bucket is empty). -/
theorem plans_trailing_unsequenced_bucket_witness :
    mainUnseqBucket exampleSetMainSeq = [] ∧
    (weight_tasks exampleSetMainSeq).2.1 = mainSeqBuckets exampleSetMainSeq :=
  ⟨by decide,
    (plans_trailing_unsequenced_bucket.1 exampleSetMainSeq).2.2.1 (by decide)⟩

/-! ## Errors and configuration (lib.rs 368-414, 1790-1899) -/

/-- The error taxonomy of `GooseError` (lib.rs 368-414).  The `Io` and
`Reqwest` payloads are irrelevant to the claims and dropped. -/
inductive GooseError where
  | Io : GooseError
  | Reqwest : GooseError
  | FeatureNotEnabled (feature : String) (detail : Option String) : GooseError
  | InvalidHost (host : String) (detail : Option String) : GooseError
  | InvalidOption (option : String) (value : String)
      (detail : Option String) : GooseError
  | InvalidWaitTime (min_wait max_wait : Nat)
      (detail : Option String) : GooseError
  | InvalidWeight (weight : Nat) (detail : Option String) : GooseError
  | NoTaskSets (detail : Option String) : GooseError
  deriving Repr, DecidableEq

/-- Whether an error is an `InvalidOption`. -/
def GooseError.isInvalidOption : GooseError → Bool
  | .InvalidOption _ _ _ => true
  | _ => false

/-- The CLI configuration (lib.rs 1790-1899), with the structopt defaults
recorded in `defaultConfiguration`. -/
structure GooseConfiguration where
  host : String
  users : Option Nat
  hatch_rate : Nat
  run_time : String
  no_stats : Bool
  status_codes : Bool
  only_summary : Bool
  reset_stats : Bool
  list : Bool
  verbose : Nat
  log_level : Nat
  log_file : String
  stats_log_file : String
  stats_log_format : String
  debug_log_file : String
  debug_log_format : String
  throttle_requests : Option Nat
  sticky_follow : Bool
  manager : Bool
  no_hash_check : Bool
  expect_workers : Nat
  manager_bind_host : String
  manager_bind_port : Nat
  worker : Bool
  manager_host : String
  manager_port : Nat
  deriving Repr, DecidableEq

/-- The structopt default values of every flag (lib.rs 1793-1899). -/
def defaultConfiguration : GooseConfiguration where
  host := ""
  users := none
  hatch_rate := 1
  run_time := ""
  no_stats := false
  status_codes := false
  only_summary := false
  reset_stats := false
  list := false
  verbose := 0
  log_level := 0
  log_file := "goose.log"
  stats_log_file := ""
  stats_log_format := "json"
  debug_log_file := ""
  debug_log_format := "json"
  throttle_requests := none
  sticky_follow := false
  manager := false
  no_hash_check := false
  expect_workers := 0
  manager_bind_host := "0.0.0.0"
  manager_bind_port := 5115
  worker := false
  manager_host := "127.0.0.1"
  manager_port := 5115

/-- Modelled from the spec: `util::parse_timespan` (module `util` is not in
`src/`).  Spec §6: a duration spec `Ns`, `Nm`, `Nh` or concatenations like
`1h30m`; a bare number counts as seconds.  Never fails. -/
def parse_timespan (s : String) : Nat :=
  let r := s.toList.foldl
    (fun (acc : Nat × Nat) (c : Char) =>
      if c.isDigit then (acc.1, acc.2 * 10 + (c.toNat - 48))
      else if c = 'h' then (acc.1 + acc.2 * 3600, 0)
      else if c = 'm' then (acc.1 + acc.2 * 60, 0)
      else if c = 's' then (acc.1 + acc.2, 0)
      else acc)
    (0, 0)
  r.1 + r.2

/-- Embedding of `GooseAttack::setup` (lib.rs 575-739) minus logger
initialization (which cannot fail).  Returns the computed
`(run_time, users)` pair on success.  Note lib.rs 615 re-tests
`stats_log_file` (not the format) while its message mentions
`--stats-log-format`; the duplicate branch is kept as written. -/
def setup (cfg : GooseConfiguration) (number_of_cpus : Nat) :
    Except GooseError (Nat × Nat) :=
  if cfg.no_stats ∧ cfg.status_codes then
    .error (.InvalidOption "--no-stats" "true"
      (some "--no-stats must not be enabled when enabling --status-codes."))
  else if cfg.no_stats ∧ cfg.only_summary then
    .error (.InvalidOption "--no-stats" "true"
      (some "--no-stats must not be enabled when enabling --only-summary."))
  else if cfg.no_stats ∧ cfg.stats_log_file ≠ "" then
    .error (.InvalidOption "--no-stats" "true"
      (some "--no-stats must not be enabled when enabling --stats-log-file."))
  else if cfg.no_stats ∧ cfg.stats_log_file ≠ "" then
    .error (.InvalidOption "--no-stats" "true"
      (some "--no-stats must not be enabled when enabling --stats-log-format."))
  else if cfg.stats_log_format ≠ "json" ∧ cfg.stats_log_file = "" then
    .error (.InvalidOption "--stats-log-format" cfg.stats_log_format
      (some "--stats-log-file must be enabled when setting --stats-log-format."))
  else if cfg.stats_log_format ≠ "json" ∧
      ¬ (["json", "csv", "raw"].contains cfg.stats_log_format) then
    .error (.InvalidOption "--stats-log-format" cfg.stats_log_format
      (some "--stats-log-format must be set to one of: json, csv, raw."))
  else if cfg.debug_log_format ≠ "json" ∧ cfg.debug_log_file = "" then
    .error (.InvalidOption "--debug-log-format" cfg.debug_log_format
      (some "--debug-log-file must be enabled when setting --debug-log-format."))
  else if cfg.debug_log_format ≠ "json" ∧
      ¬ (["json", "raw"].contains cfg.debug_log_format) then
    .error (.InvalidOption "--debug-log-format" cfg.debug_log_format
      (some "--debug-log-format must be set to one of: json, raw."))
  else if cfg.worker ∧ cfg.run_time ≠ "" then
    .error (.InvalidOption "--run-time" "true"
      (some "The --run-time option is only available to the manager."))
  else
    let run_time := if cfg.worker then 0
      else if cfg.run_time ≠ "" then parse_timespan cfg.run_time else 0
    match cfg.users with
    | some u =>
      if u = 0 then
        if cfg.worker then
          .error (.InvalidOption "--users" "0"
            (some "at least 1 user is required."))
        else .ok (run_time, 0)
      else if cfg.worker then
        .error (.InvalidOption "--users" "0"
          (some "--users option only available to manager process"))
      else .ok (run_time, u)
    | none => .ok (run_time, number_of_cpus)

/-- C7: with `no_stats` set, `setup` rejects (with an `InvalidOption` error,
before any user is spawned) any configuration that also sets
`status_codes`, `only_summary`, a stats log file, or a non-default stats
log format; with all of those at their defaults, `no_stats` alone passes
`setup`. -/
theorem setup_no_stats_cross_validation :
    (∀ (cfg : GooseConfiguration) (ncpus : Nat), cfg.no_stats = true →
      (cfg.status_codes = true ∨ cfg.only_summary = true ∨
        cfg.stats_log_file ≠ "" ∨ cfg.stats_log_format ≠ "json") →
      ∃ o v d, setup cfg ncpus = .error (.InvalidOption o v d)) ∧
    (setup { defaultConfiguration with no_stats := true } 4).isOk = true := by
  refine ⟨?_, by decide⟩
  intro cfg ncpus hns hor
  by_cases hsc : cfg.status_codes = true
  · exact ⟨"--no-stats", "true",
      some "--no-stats must not be enabled when enabling --status-codes.",
      by simp [setup, hns, hsc]⟩
  by_cases hos : cfg.only_summary = true
  · exact ⟨"--no-stats", "true",
      some "--no-stats must not be enabled when enabling --only-summary.",
      by simp [setup, hns, hsc, hos]⟩
  by_cases hfile : cfg.stats_log_file = ""
  · have hfmt : cfg.stats_log_format ≠ "json" := by tauto
    exact ⟨"--stats-log-format", cfg.stats_log_format,
      some "--stats-log-file must be enabled when setting --stats-log-format.",
      by simp [setup, hns, hsc, hos, hfile, hfmt]⟩
  · exact ⟨"--no-stats", "true",
      some "--no-stats must not be enabled when enabling --stats-log-file.",
      by simp [setup, hns, hsc, hos, hfile]⟩

/-- Witness for C7 at a concrete configuration (`no_stats` plus
`status_codes`). -/
theorem setup_no_stats_cross_validation_witness :
    ∃ o v d, setup
      { defaultConfiguration with no_stats := true, status_codes := true } 4 =
        .error (.InvalidOption o v d) :=
  setup_no_stats_cross_validation.1 _ 4 rfl (Or.inl rfl)

/-! ## Validation phase of `GooseAttack::execute` (lib.rs 955-1199) -/

/-- Outcome of the validation phase of `execute`: an error, the `--list`
early exit, or proceeding to plan building and launch. -/
inductive ExecOutcome where
  | err (e : GooseError)
  | listed
  | proceed
  deriving Repr, DecidableEq

/-- The host-availability loop of `execute` (lib.rs 1171-1196), run when the
CLI host is empty: the first task set with neither its own host nor a
default host yields an error (unless in worker mode).  An invalid host
string is merely not logged; it produces no error here. -/
def hostCheck (worker : Bool) (defaultHost : Option String) :
    List GooseTaskSet → Option GooseError
  | [] => none
  | s :: rest =>
    if s.host.isSome then hostCheck worker defaultHost rest
    else if defaultHost.isSome then hostCheck worker defaultHost rest
    else if worker then hostCheck worker defaultHost rest
    else some (.InvalidOption "--host" ""
      (some "host must be defined via --host, GooseAttack.set_host() or GooseTaskSet.set_host()"))

/-- Checks of `execute` that follow the throttle validation
(lib.rs 1047-1199): worker-mode restrictions, stand-alone restrictions,
hatch rate, and host availability. -/
def executeValidateRest (cfg : GooseConfiguration) (defaultHost : Option String)
    (task_sets : List GooseTaskSet) : ExecOutcome :=
  if cfg.worker ∧ cfg.manager then
    .err (.InvalidOption "--manager" "true"
      (some "enable manager or worker mode, not both"))
  else if cfg.worker ∧ 0 < cfg.expect_workers then
    .err (.InvalidOption "--expect-workers" (toString cfg.expect_workers)
      (some "--expect-workers is only available to the manager"))
  else if cfg.worker ∧ cfg.host ≠ "" then
    .err (.InvalidOption "--host" cfg.host
      (some "--host is only available to the manager"))
  else if cfg.worker ∧ cfg.manager_bind_host ≠ "0.0.0.0" then
    .err (.InvalidOption "--manager-bind-host" cfg.manager_bind_host
      (some "--manager-bind-host is only available to the manager"))
  else if cfg.worker ∧ cfg.manager_bind_port ≠ 5115 then
    .err (.InvalidOption "--manager-bind-port" (toString cfg.manager_bind_port)
      (some "--manager-bind-port is only available to the manager"))
  else if cfg.worker ∧ cfg.no_stats then
    .err (.InvalidOption "--no-stats" "true"
      (some "--no-stats is only available to the manager"))
  else if cfg.worker ∧ cfg.only_summary then
    .err (.InvalidOption "--only-summary" "true"
      (some "--only-summary is only available to the manager"))
  else if cfg.worker ∧ cfg.status_codes then
    .err (.InvalidOption "--status-codes" "true"
      (some "--status-codes is only available to the manager"))
  else if cfg.worker ∧ cfg.no_hash_check then
    .err (.InvalidOption "--no-hash-check" "true"
      (some "--no-hash-check is only available to the manager"))
  else if ¬ cfg.manager ∧ ¬ cfg.worker ∧ cfg.no_hash_check then
    .err (.InvalidOption "--no-hash-check" "true"
      (some "--no-hash-check is only available when running in manager mode"))
  else if ¬ cfg.manager ∧ ¬ cfg.worker ∧ 0 < cfg.expect_workers then
    .err (.InvalidOption "--expect-workers" (toString cfg.expect_workers)
      (some "--expect-workers is only available when running in manager mode"))
  else if cfg.hatch_rate = 0 then
    .err (.InvalidOption "--hatch-rate" (toString cfg.hatch_rate)
      (some "--hatch-rate must be greater than 0, or no users can launch"))
  else if 1 < cfg.hatch_rate ∧ cfg.worker then
    .err (.InvalidOption "--hatch-rate" (toString cfg.hatch_rate)
      (some "--hatch-rate is only available to the manager"))
  else if cfg.host = "" then
    match hostCheck cfg.worker defaultHost task_sets with
    | some e => .err e
    | none => .proceed
  else .proceed

/-- Embedding of the validation phase of `GooseAttack::execute`
(lib.rs 955-1199): the `NoTaskSets` check, the `--list` early exit, the
manager-mode restrictions, the throttle range validation
(lib.rs 1021-1044), then `executeValidateRest`.  `users` is the resolved
user count, `defaultHost` the value set by `set_host`.  No step after this
phase names `--throttle-requests`. -/
def executeValidate (cfg : GooseConfiguration) (defaultHost : Option String)
    (task_sets : List GooseTaskSet) (users : Nat) : ExecOutcome :=
  if task_sets.isEmpty then .err (.NoTaskSets (some "no task sets defined"))
  else if cfg.list then .listed
  else if cfg.manager ∧ cfg.worker then
    .err (.InvalidOption "--worker" "true"
      (some "enable manager or worker mode, not both"))
  else if cfg.manager ∧ cfg.expect_workers < 1 then
    .err (.InvalidOption "--expect-workers" (toString cfg.expect_workers)
      (some "--expect-workers must be at least 1"))
  else if cfg.manager ∧ users < cfg.expect_workers then
    .err (.InvalidOption "--expect-workers" (toString cfg.expect_workers)
      (some "--expect-workers can not be larger than --users"))
  else if cfg.manager ∧ cfg.debug_log_file ≠ "" then
    .err (.InvalidOption "--debug-log-file" cfg.debug_log_file
      (some "--debug-log-file can only be enabled in stand-alone or worker mode"))
  else if cfg.manager ∧ cfg.throttle_requests.isSome then
    .err (.InvalidOption "--throttle-requests"
      (toString (cfg.throttle_requests.getD 0))
      (some "--throttle-requests can only be enabled in stand-alone mode or worker mode"))
  else
    match cfg.throttle_requests with
    | some throttle =>
      if throttle = 0 then
        .err (.InvalidOption "--throttle-requests" (toString throttle)
          (some "--throttle-requests must be at least 1 request per second"))
      else if 1000000 < throttle then
        .err (.InvalidOption "--throttle-requests" (toString throttle)
          (some "--throttle-requests can not be more than 1,000,000 request per second"))
      else executeValidateRest cfg defaultHost task_sets
    | none => executeValidateRest cfg defaultHost task_sets

/-- Whether the outcome is an `InvalidOption` error naming
`--throttle-requests`. -/
def ExecOutcome.throttleNamed : ExecOutcome → Bool
  | .err (.InvalidOption o _ _) => o == "--throttle-requests"
  | _ => false

lemma hostCheck_host_option (worker : Bool) (dh : Option String) :
    ∀ (sets : List GooseTaskSet) (e : GooseError),
      hostCheck worker dh sets = some e →
      ∃ d, e = .InvalidOption "--host" "" d := by
  intro sets
  induction sets with
  | nil => intro e h; cases h
  | cons s rest ih =>
    intro e h
    unfold hostCheck at h
    split_ifs at h
    · exact ih e h
    · exact ih e h
    · exact ih e h
    · exact ⟨_, (Option.some_injective _ h).symm⟩

lemma throttleNamed_ite (c : Prop) [Decidable c] (a b : ExecOutcome) :
    (if c then a else b).throttleNamed =
      if c then a.throttleNamed else b.throttleNamed := by
  by_cases h : c <;> simp [h]

lemma throttleNamed_err_other (o v : String) (d : Option String)
    (h : (o == "--throttle-requests") = false) :
    (ExecOutcome.err (.InvalidOption o v d)).throttleNamed = false := by
  simp only [ExecOutcome.throttleNamed, h]

lemma throttleNamed_proceed : ExecOutcome.proceed.throttleNamed = false := rfl

/-- The final host-availability step never names `--throttle-requests`. -/
lemma throttleNamed_hostCheck_step (w : Bool) (dh : Option String)
    (sets : List GooseTaskSet) :
    (match hostCheck w dh sets with
      | some e => ExecOutcome.err e
      | none => ExecOutcome.proceed).throttleNamed = false := by
  cases hh : hostCheck w dh sets with
  | some e =>
    rcases hostCheck_host_option w dh sets e hh with ⟨d, rfl⟩
    rfl
  | none => rfl

/-- No check after the throttle range validation can emit an error naming
`--throttle-requests`. -/
lemma executeValidateRest_no_throttle (cfg : GooseConfiguration)
    (dh : Option String) (sets : List GooseTaskSet) :
    (executeValidateRest cfg dh sets).throttleNamed = false := by
  unfold executeValidateRest
  rw [throttleNamed_ite, throttleNamed_ite, throttleNamed_ite,
    throttleNamed_ite, throttleNamed_ite, throttleNamed_ite,
    throttleNamed_ite, throttleNamed_ite, throttleNamed_ite,
    throttleNamed_ite, throttleNamed_ite, throttleNamed_ite,
    throttleNamed_ite, throttleNamed_ite]
  rw [throttleNamed_err_other "--manager" _ _ rfl,
    throttleNamed_err_other "--expect-workers" _ _ rfl,
    throttleNamed_err_other "--host" _ _ rfl,
    throttleNamed_err_other "--manager-bind-host" _ _ rfl,
    throttleNamed_err_other "--manager-bind-port" _ _ rfl,
    throttleNamed_err_other "--no-stats" _ _ rfl,
    throttleNamed_err_other "--only-summary" _ _ rfl,
    throttleNamed_err_other "--status-codes" _ _ rfl,
    throttleNamed_err_other "--no-hash-check" _ _ rfl,
    throttleNamed_err_other "--no-hash-check" _ _ rfl,
    throttleNamed_err_other "--expect-workers" _ _ rfl,
    throttleNamed_err_other "--hatch-rate" _ _ rfl,
    throttleNamed_err_other "--hatch-rate" _ _ rfl,
    throttleNamed_hostCheck_step cfg.worker dh sets, throttleNamed_proceed]
  simp only [ite_self]

/-- C8 counterexample: with `--manager` set (and an otherwise valid manager
configuration), `execute` rejects a throttle value of 500 — inside the
claimed always-valid range `1 ≤ R ≤ 1,000,000` — with an `InvalidOption`
naming `--throttle-requests` (lib.rs 1012-1018). -/
theorem execute_throttle_claim_counterexample :
    (1 ≤ 500 ∧ 500 ≤ 1000000) ∧
    executeValidate
      { defaultConfiguration with
          manager := true
          expect_workers := 1
          throttle_requests := some 500 }
      none [exampleSetAB] 1 =
      .err (.InvalidOption "--throttle-requests" "500"
        (some "--throttle-requests can only be enabled in stand-alone mode or worker mode")) :=
  ⟨⟨by decide, by decide⟩, by rfl⟩

/-- C8 (amended): outside manager mode (and with `--list` unset and at
least one registered task set), `execute` returns an `InvalidOption` error
naming `--throttle-requests` iff a throttle value `R` is present with
`R = 0` or `R > 1,000,000`; in manager mode any present throttle value is
rejected under that name (see the counterexample). -/
theorem execute_throttle_validation :
    ∀ (cfg : GooseConfiguration) (dh : Option String)
      (sets : List GooseTaskSet) (users : Nat),
      cfg.manager = false → cfg.list = false → sets ≠ [] →
      ((executeValidate cfg dh sets users).throttleNamed = true ↔
        ∃ r, cfg.throttle_requests = some r ∧ (r = 0 ∨ 1000000 < r)) := by
  intro cfg dh sets users hm hl hs
  have hempty : sets.isEmpty = false := by
    cases sets with
    | nil => exact absurd rfl hs
    | cons a l => rfl
  unfold executeValidate
  rw [if_neg (by simp [hempty]), if_neg (by simp [hl]),
    if_neg (by simp [hm]), if_neg (by simp [hm]), if_neg (by simp [hm]),
    if_neg (by simp [hm]), if_neg (by simp [hm])]
  cases ht : cfg.throttle_requests with
  | none =>
    simp only [executeValidateRest_no_throttle]
    simp
  | some r =>
    by_cases hr0 : r = 0
    · subst hr0
      simp only [if_pos rfl]
      constructor
      · intro _
        exact ⟨0, rfl, Or.inl rfl⟩
      · intro _
        rfl
    · by_cases hrM : 1000000 < r
      · simp only [if_neg hr0, if_pos hrM]
        constructor
        · intro _
          exact ⟨r, rfl, Or.inr hrM⟩
        · intro _
          rfl
      · simp only [if_neg hr0, if_neg hrM, executeValidateRest_no_throttle]
        simp [hr0, hrM]

/-- Witness for C8's amended statement at a present throttle of 0. -/
theorem execute_throttle_validation_witness :
    (executeValidate { defaultConfiguration with throttle_requests := some 0 }
        none [exampleSetAB] 8).throttleNamed = true :=
  (execute_throttle_validation _ none [exampleSetAB] 8 rfl rfl
    (by simp)).mpr ⟨0, rfl, Or.inl rfl⟩

/-! ## Request events and per-endpoint statistics (lib.rs 1552-1723)

`GooseRawRequest` and `GooseRequest` live in the absent `goose` module; their
fields are reconstructed from their uses in `lib.rs` (prepare_csv, the merge
loops) and the spec's data model (§3).  The counts are embedded as `Int` so
that the unconditional decrement of the update branch keeps its arithmetic
meaning (in Rust they are unsigned and the decrement underflows). -/

/-- One request event, fields in the CSV serialization order of
`prepare_csv` (lib.rs 1285-1300).  The HTTP method is kept as its Debug
rendering (e.g. `GET`). -/
structure GooseRawRequest where
  elapsed : Nat
  method : String
  name : String
  url : String
  final_url : String
  redirected : Bool
  response_time : Nat
  status_code : Nat
  success : Bool
  update : Bool
  user : Nat
  deriving Repr, DecidableEq

/-- Per-endpoint statistics (`GooseRequest`, spec §3 EndpointStats): the
response-time histogram, min/max/sum/counter, the status-code histogram and
the success/fail counts. -/
structure GooseRequest where
  name : String
  method : String
  response_times : List (Nat × Nat)
  min_response_time : Nat
  max_response_time : Nat
  total_response_time : Nat
  response_time_counter : Nat
  status_code_counts : List (Nat × Nat)
  success_count : Int
  fail_count : Int
  load_test_hash : Nat
  deriving Repr, DecidableEq

/-- A fresh per-endpoint record (`GooseRequest::new`, all counters zero). -/
def GooseRequest.new (name method : String) (hash : Nat) : GooseRequest :=
  ⟨name, method, [], 0, 0, 0, 0, [], 0, 0, hash⟩

/-- Increment the bucket of `k` in a histogram kept as an association
list. -/
def histIncrement (k : Nat) : List (Nat × Nat) → List (Nat × Nat)
  | [] => [(k, 1)]
  | (q, c) :: rest =>
    if k = q then (q, c + 1) :: rest else (q, c) :: histIncrement k rest

/-- Round `v` to the nearest multiple of `m`. -/
def roundTo (v m : Nat) : Nat := ((v + m / 2) / m) * m

/-- The histogram coarsening rule of spec §4.3: exact below 100 ms, then to
the nearest 10, 100 or 1000 ms. -/
def coarsenResponseTime (v : Nat) : Nat :=
  if v < 100 then v
  else if v < 1000 then roundTo v 10
  else if v < 10000 then roundTo v 100
  else roundTo v 1000

/-- Modelled from the spec: `GooseRequest::set_response_time` (module
`goose` is not in `src/`).  Spec §4.3: record the response time into the
coarsened histogram and update min/max/sum and the observation counter. -/
def set_response_time (req : GooseRequest) (rt : Nat) : GooseRequest :=
  { req with
    response_times := histIncrement (coarsenResponseTime rt) req.response_times
    min_response_time :=
      if req.response_time_counter = 0 then rt
      else min req.min_response_time rt
    max_response_time := max req.max_response_time rt
    total_response_time := req.total_response_time + rt
    response_time_counter := req.response_time_counter + 1 }

/-- Modelled from the spec: `GooseRequest::set_status_code` (module `goose`
is not in `src/`).  Spec §4.3: increment the histogram bucket of the
status code. -/
def set_status_code (req : GooseRequest) (code : Nat) : GooseRequest :=
  { req with status_code_counts := histIncrement code req.status_code_counts }

/-- The steady-state merge of one received event into its endpoint entry
(lib.rs 1599-1620): an update event flips the success/fail classification
and touches nothing else; a normal event records the response time, the
status code (when tracked) and increments one count. -/
def mergeEvent (status_codes : Bool) (req : GooseRequest)
    (raw : GooseRawRequest) : GooseRequest :=
  if raw.update then
    if raw.success then
      { req with success_count := req.success_count + 1
                 fail_count := req.fail_count - 1 }
    else
      { req with success_count := req.success_count - 1
                 fail_count := req.fail_count + 1 }
  else
    let req1 := set_response_time req raw.response_time
    let req2 := if status_codes then set_status_code req1 raw.status_code
      else req1
    if raw.success then
      { req2 with success_count := req2.success_count + 1 }
    else
      { req2 with fail_count := req2.fail_count + 1 }

/-- The final post-shutdown drain merge (lib.rs 1710-1718).  As written in
the source it does NOT test `raw_request.update`: every drained event is
treated as a normal event. -/
def mergeEventFinal (status_codes : Bool) (req : GooseRequest)
    (raw : GooseRawRequest) : GooseRequest :=
  let req1 := set_response_time req raw.response_time
  let req2 := if status_codes then set_status_code req1 raw.status_code
    else req1
  if raw.success then
    { req2 with success_count := req2.success_count + 1 }
  else
    { req2 with fail_count := req2.fail_count + 1 }

/-- A concrete update event (success reclassification, 55 ms). -/
def exampleUpdateEvent : GooseRawRequest :=
  ⟨10, "GET", "/", "http://example.com/", "http://example.com/",
    false, 55, 200, true, true, 0⟩

/-- A concrete update event flipping to failure. -/
def exampleUpdateFailEvent : GooseRawRequest :=
  ⟨10, "GET", "/", "http://example.com/", "http://example.com/",
    false, 55, 500, false, true, 0⟩

/-- C2: in the steady-state drain loop an update event only flips the
success/fail counts of its endpoint entry, leaving the response-time
histogram, min/max/sum, the observation counter and the status-code
histogram unchanged; but the final post-shutdown drain (lib.rs 1700-1723)
ignores the `update` flag, so there the same event mutates the
response-time histogram — shown at a concrete input. -/
theorem merge_update_frame_and_final_drain_divergence :
    (∀ (sc : Bool) (req : GooseRequest) (raw : GooseRawRequest),
      raw.update = true →
        (mergeEvent sc req raw).response_times = req.response_times ∧
        (mergeEvent sc req raw).min_response_time = req.min_response_time ∧
        (mergeEvent sc req raw).max_response_time = req.max_response_time ∧
        (mergeEvent sc req raw).total_response_time = req.total_response_time ∧
        (mergeEvent sc req raw).response_time_counter =
          req.response_time_counter ∧
        (mergeEvent sc req raw).status_code_counts = req.status_code_counts ∧
        (raw.success = true →
          (mergeEvent sc req raw).success_count = req.success_count + 1 ∧
          (mergeEvent sc req raw).fail_count = req.fail_count - 1) ∧
        (raw.success = false →
          (mergeEvent sc req raw).success_count = req.success_count - 1 ∧
          (mergeEvent sc req raw).fail_count = req.fail_count + 1)) ∧
    ((mergeEventFinal false (GooseRequest.new "/" "GET" 0)
        exampleUpdateEvent).response_times ≠
      (GooseRequest.new "/" "GET" 0).response_times ∧
      (mergeEventFinal false (GooseRequest.new "/" "GET" 0)
          exampleUpdateEvent).response_time_counter =
        (GooseRequest.new "/" "GET" 0).response_time_counter + 1) := by
  constructor
  · intro sc req raw hup
    by_cases hsuc : raw.success = true <;>
      simp [mergeEvent, hup, hsuc]
  · constructor
    · decide
    · rfl

/-- Witness for C2's frame property at a concrete update event. -/
theorem merge_update_frame_witness :
    (mergeEvent true (GooseRequest.new "/" "GET" 0)
        exampleUpdateEvent).response_times =
      (GooseRequest.new "/" "GET" 0).response_times ∧
    (mergeEvent true (GooseRequest.new "/" "GET" 0)
        exampleUpdateEvent).success_count =
      (GooseRequest.new "/" "GET" 0).success_count + 1 :=
  ⟨(merge_update_frame_and_final_drain_divergence.1 true
      (GooseRequest.new "/" "GET" 0) exampleUpdateEvent rfl).1,
    ((merge_update_frame_and_final_drain_divergence.1 true
      (GooseRequest.new "/" "GET" 0) exampleUpdateEvent rfl).2.2.2.2.2.2.1
        rfl).1⟩

/-- C3 counterexample: merging an update event whose flip decrements a
count that is already zero drives that count below zero (to `-1` in the
integer model; a `usize` underflow in Rust), and no warning is recorded
anywhere in the merge. -/
theorem merge_update_zero_count_counterexample :
    (mergeEvent false (GooseRequest.new "/" "GET" 0)
        exampleUpdateEvent).fail_count = -1 ∧
    (mergeEvent false (GooseRequest.new "/" "GET" 0)
        exampleUpdateEvent).fail_count < 0 := by
  constructor
  · rfl
  · decide

/-- C3 (amended): the merge decrements unconditionally — an update event
whose flip targets a count that is already zero leaves that count at `-1`
(below zero); there is no warning and no clamping in the merge
(lib.rs 1600-1608). -/
theorem merge_update_zero_count_underflow :
    ∀ (sc : Bool) (req : GooseRequest) (raw : GooseRawRequest),
      raw.update = true →
      (raw.success = true → req.fail_count = 0 →
        (mergeEvent sc req raw).fail_count = -1) ∧
      (raw.success = false → req.success_count = 0 →
        (mergeEvent sc req raw).success_count = -1) := by
  intro sc req raw hup
  constructor
  · intro hsuc hz
    simp [mergeEvent, hup, hsuc, hz]
  · intro hsuc hz
    simp [mergeEvent, hup, hsuc, hz]

/-- Witness for C3's amended statement at a concrete zero-count flip. -/
theorem merge_update_zero_count_underflow_witness :
    (mergeEvent true (GooseRequest.new "/" "GET" 0)
        exampleUpdateFailEvent).success_count = -1 :=
  (merge_update_zero_count_underflow true (GooseRequest.new "/" "GET" 0)
    exampleUpdateFailEvent rfl).2 rfl rfl

/-! ## Host validation (`is_valid_host`, lib.rs 2094-2101)

`is_valid_host` simply delegates to `Url::parse` of the external `url`
crate (a WHATWG URL parser), returning `Ok(true)` on success and
`InvalidHost` on failure.  The parser is external code, so it is modelled
from the spec below. -/

/-- Allowed characters of a URL scheme after its first letter. -/
def isSchemeChar (c : Char) : Bool :=
  c.isAlphanum || c = '+' || c = '-' || c = '.'

/-- Split a character list at the first colon, returning the parts before
and after; `none` when there is no colon. -/
def splitOnColon : List Char → Option (List Char × List Char)
  | [] => none
  | c :: rest =>
    if c = ':' then some ([], rest)
    else
      match splitOnColon rest with
      | some (a, b) => some (c :: a, b)
      | none => none

/-- Characters the WHATWG parser rejects inside a host. -/
def forbiddenHostChar (c : Char) : Bool :=
  c = ' ' || c = '<' || c = '>' || c = '"' || c = '|' || c = '^' || c = '\\'

/-- Modelled from the spec: `Url::parse` of the external `url` crate
(spec §4.8 and §8).  A string parses iff it is an absolute URL with a
scheme: a scheme (letter, then letters/digits/`+`/`-`/`.`) before a colon;
a special scheme (`http`, `https`, `ws`, `wss`, `ftp`) additionally needs a
non-empty host without forbidden characters after the slashes; `file`
allows an empty host; any other scheme accepts the remainder verbatim. -/
def urlParseOk (s : String) : Bool :=
  match splitOnColon s.toList with
  | none => false
  | some (schemeChars, rest) =>
    let scheme := String.mk schemeChars
    if schemeChars.isEmpty then false
    else if !(schemeChars.headD 'a').isAlpha then false
    else if !schemeChars.all isSchemeChar then false
    else if ["http", "https", "ws", "wss", "ftp"].contains scheme then
      let host := (rest.dropWhile (fun c => c = '/')).takeWhile
        (fun c => !(c = '/' || c = '?' || c = '#'))
      if host.isEmpty then false
      else !host.any forbiddenHostChar
    else if scheme = "file" then
      let host := (rest.dropWhile (fun c => c = '/')).takeWhile
        (fun c => !(c = '/' || c = '?' || c = '#'))
      !host.any forbiddenHostChar
    else true

/-- Embedding of `is_valid_host` (lib.rs 2094-2101): delegate to the URL
parser; success yields `Ok(true)`, failure an `InvalidHost` error. -/
def is_valid_host (host : String) : Except GooseError Bool :=
  if urlParseOk host then .ok true
  else .error (.InvalidHost host none)

/-- Whether a host validation succeeded (`is_ok()` in the tests,
lib.rs 2107-2128). -/
def resultIsOk : Except GooseError Bool → Bool
  | .ok _ => true
  | .error _ => false

/-- C6: `is_valid_host` accepts exactly the strings that parse as an
absolute URL with a scheme, and on the thirteen truth-table inputs of the
spec (also the repository's own `valid_host` test) it returns exactly the
listed verdicts. -/
theorem is_valid_host_truth_table :
    (∀ s, resultIsOk (is_valid_host s) = urlParseOk s) ∧
    resultIsOk (is_valid_host "http://example.com") = true ∧
    resultIsOk (is_valid_host "example.com") = false ∧
    resultIsOk (is_valid_host "http://example.com/") = true ∧
    resultIsOk (is_valid_host "example.com/") = false ∧
    resultIsOk (is_valid_host "https://www.example.com/and/with/path") = true ∧
    resultIsOk (is_valid_host "www.example.com/and/with/path") = false ∧
    resultIsOk (is_valid_host "foo://example.com") = true ∧
    resultIsOk (is_valid_host "file:///path/to/file") = true ∧
    resultIsOk (is_valid_host "/path/to/file") = false ∧
    resultIsOk (is_valid_host "http://") = false ∧
    resultIsOk (is_valid_host "http://foo") = true ∧
    resultIsOk (is_valid_host "http:///example.com") = true ∧
    resultIsOk (is_valid_host "http:// example.com") = false := by
  refine ⟨?_, by decide, by decide, by decide, by decide, by decide,
    by decide, by decide, by decide, by decide, by decide, by decide,
    by decide, by decide⟩
  intro s
  by_cases h : urlParseOk s = true <;> simp [is_valid_host, resultIsOk, h]

/-! ## CSV statistics log (`prepare_csv`, lib.rs 1285-1322) -/

/-- Quote a string field for the CSV log. -/
def quoteField (s : String) : String := "\"" ++ s ++ "\""

/-- One CSV row of an event, in the field order of the format string of
`prepare_csv`: the three string fields `name`, `url`, `final_url` are
quoted, the method is its Debug rendering, booleans print as
`true`/`false`. -/
def csvRow (raw : GooseRawRequest) : String :=
  String.intercalate ","
    [toString raw.elapsed, raw.method, quoteField raw.name,
      quoteField raw.url, quoteField raw.final_url,
      toString raw.redirected, toString raw.response_time,
      toString raw.status_code, toString raw.success, toString raw.update,
      toString raw.user]

/-- The CSV header row of `prepare_csv` (lib.rs 1304-1318). -/
def csvHeader : String :=
  String.intercalate ","
    ["elapsed", "method", "name", "url", "final_url", "redirected",
      "response_time", "status_code", "success", "update", "user"]

/-- Embedding of `GooseAttack::prepare_csv` (lib.rs 1285-1322): the
`header: &mut bool` in-out flag becomes an explicit returned flag.  The
first call (flag `true`) emits the header line, a newline and the row, and
clears the flag; later calls emit only the row. -/
def prepare_csv (raw : GooseRawRequest) (header : Bool) : String × Bool :=
  let body := csvRow raw
  if header then (csvHeader ++ "\n" ++ body, false) else (body, false)

/-- The sequence of strings produced by serializing the events in order
through `prepare_csv`, threading the shared header flag. -/
def csvOutputs : List GooseRawRequest → Bool → List String
  | [], _ => []
  | r :: rest, header =>
    let out := prepare_csv r header
    out.1 :: csvOutputs rest out.2

lemma csvOutputs_false : ∀ (es : List GooseRawRequest),
    csvOutputs es false = es.map csvRow := by
  intro es
  induction es with
  | nil => rfl
  | cons e rest ih => simp [csvOutputs, prepare_csv, ih]

/-- C9: serializing a sequence of events through `prepare_csv` with one
header flag initialized to `true` yields the exact header line followed by
the first event's row as the first output, then one unheadered row per
later event; each row comma-joins the fields with `name`, `url` and
`final_url` enclosed in double quotes. -/
theorem prepare_csv_header_once :
    (∀ (e : GooseRawRequest) (es : List GooseRawRequest),
      csvOutputs (e :: es) true =
        (csvHeader ++ "\n" ++ csvRow e) :: es.map csvRow) ∧
    csvHeader =
      "elapsed,method,name,url,final_url,redirected,response_time,status_code,success,update,user" ∧
    (∀ e : GooseRawRequest, csvRow e = String.intercalate ","
      [toString e.elapsed, e.method, "\"" ++ e.name ++ "\"",
        "\"" ++ e.url ++ "\"", "\"" ++ e.final_url ++ "\"",
        toString e.redirected, toString e.response_time,
        toString e.status_code, toString e.success, toString e.update,
        toString e.user]) := by
  refine ⟨?_, by decide, fun e => rfl⟩
  intro e es
  simp [csvOutputs, prepare_csv, csvOutputs_false]

/-! ## User allocation (`weight_task_set_users`, lib.rs 864-924) -/

/-- A spawned user state, keeping the fields `GooseUser::new` receives from
`weight_task_set_users`: the task-set index, the resolved base URL and the
wait-time window. -/
structure GooseUser where
  task_sets_index : Nat
  base_url : String
  min_wait : Nat
  max_wait : Nat
  deriving Repr, DecidableEq

/-- `get_configuration_host` (lib.rs 1276-1282): the CLI host wrapped in an
option when non-empty. -/
def configurationHost (cfg : GooseConfiguration) : Option String :=
  if cfg.host = "" then none else some cfg.host

/-- Modelled from the spec: `goose::get_base_url` (module `goose` is not in
`src/`).  Spec §4.8 precedence: CLI host if non-empty, else the TaskSet
host, else the global default host, else an error. -/
def get_base_url (config_host task_set_host default_host : Option String) :
    Except GooseError String :=
  match config_host with
  | some h => .ok h
  | none =>
    match task_set_host with
    | some h => .ok h
    | none =>
      match default_host with
      | some h => .ok h
      | none => .error (.InvalidOption "--host" ""
          (some "host must be defined via --host, GooseAttack.set_host() or GooseTaskSet.set_host()"))

/-- Placeholder for out-of-range indexing (never reached: the weighted
vector only holds indices below the task-set count). -/
def dummyTaskSet : GooseTaskSet := ⟨0, [], 1, none, 0, 0⟩

/-- Build the user pushed for one weighted index (lib.rs 903-916): resolve
the base URL for the indexed task set and copy its index and wait
window. -/
def mkWeightedUser (cfg : GooseConfiguration) (defaultHost : Option String)
    (sets : List GooseTaskSet) (i : Nat) : Except GooseError GooseUser :=
  let s := sets.getD i dummyTaskSet
  match get_base_url (configurationHost cfg) s.host defaultHost with
  | .error e => .error e
  | .ok url => .ok ⟨s.task_sets_index, url, s.min_wait, s.max_wait⟩

/-- The weighted task-set index vector (lib.rs 882-896): each set's
enumeration index repeated `weight / gcd` times, in registration order. -/
def weightedIndexes (u : Nat) : Nat → List GooseTaskSet → List Nat
  | _, [] => []
  | i, s :: rest => List.replicate (s.weight / u) i ++ weightedIndexes u (i + 1) rest

/-- The gcd-reduced round-robin vector of task-set indices. -/
def weightedTaskSetsVector (sets : List GooseTaskSet) : List Nat :=
  weightedIndexes (gcdFold (sets.map (fun s => s.weight))) 0 sets

/-- The spawning loop of `weight_task_set_users` (lib.rs 900-923): iterate
the weighted vector cyclically, pushing one user per index; stop when the
post-increment count reaches the requested total.  Fuel models the
potential non-termination of the Rust `loop` (an empty weighted vector
never returns); `none` is the divergence outcome. -/
def spawnUsersGo (mk : Nat → Except GooseError GooseUser) (users : Nat)
    (orig : List Nat) :
    Nat → List Nat → Nat → List GooseUser →
      Option (Except GooseError (List GooseUser))
  | 0, _, _, _ => none
  | fuel + 1, [], count, acc => spawnUsersGo mk users orig fuel orig count acc
  | fuel + 1, i :: rest, count, acc =>
    match mk i with
    | .error e => some (.error e)
    | .ok user =>
      if users ≤ count + 1 then some (.ok (acc ++ [user]))
      else spawnUsersGo mk users orig fuel rest (count + 1) (acc ++ [user])

/-- Embedding of `weight_task_set_users` (lib.rs 864-924). -/
def weight_task_set_users (cfg : GooseConfiguration)
    (defaultHost : Option String) (sets : List GooseTaskSet) (users : Nat) :
    Option (Except GooseError (List GooseUser)) :=
  let weighted := weightedTaskSetsVector sets
  spawnUsersGo (mkWeightedUser cfg defaultHost sets) users weighted
    (2 * users + 3) weighted 0 []

/-- The first `n` elements of `pending` followed by the cyclic repetition
of `orig` — the reference stream of the claim's round-robin
construction. -/
def cycleTake (orig : List Nat) : Nat → List Nat → List Nat
  | 0, _ => []
  | n + 1, [] =>
    match orig with
    | [] => []
    | o :: os => o :: cycleTake orig n os
  | n + 1, i :: rest => i :: cycleTake orig n rest

lemma cycleTake_length (orig : List Nat) (h : orig ≠ []) :
    ∀ (n : Nat) (pending : List Nat), (cycleTake orig n pending).length = n := by
  intro n
  induction n with
  | zero => intro pending; rfl
  | succ m ih =>
    intro pending
    cases pending with
    | nil =>
      obtain ⟨o, os, rfl⟩ : ∃ o os, orig = o :: os := by
        cases orig with
        | nil => exact absurd rfl h
        | cons o os => exact ⟨o, os, rfl⟩
      simp [cycleTake, ih]
    | cons i rest => simp [cycleTake, ih]

lemma cycleTake_mem (orig : List Nat) :
    ∀ (n : Nat) (pending : List Nat) (x : Nat),
      x ∈ cycleTake orig n pending → x ∈ orig ∨ x ∈ pending := by
  intro n
  induction n with
  | zero => intro pending x hx; cases hx
  | succ m ih =>
    intro pending x hx
    cases pending with
    | nil =>
      cases orig with
      | nil => cases hx
      | cons o os =>
        simp only [cycleTake] at hx
        rcases List.mem_cons.mp hx with rfl | hx'
        · exact Or.inl (by simp)
        · rcases ih os x hx' with h' | h'
          · exact Or.inl h'
          · exact Or.inl (List.mem_cons_of_mem o h')
    | cons i rest =>
      simp only [cycleTake] at hx
      rcases List.mem_cons.mp hx with rfl | hx'
      · exact Or.inr (by simp)
      · rcases ih rest x hx' with h' | h'
        · exact Or.inl h'
        · exact Or.inr (by simp [h'])

lemma cycleTake_refill (orig : List Nat) (n : Nat) :
    cycleTake orig (n + 1) [] = cycleTake orig (n + 1) orig := by
  cases orig with
  | nil => rfl
  | cons o os => rfl

/-- Characterization of the spawning loop: with enough fuel, a non-empty
weighted vector and every needed user constructible, the loop returns the
users built from the next `users - count` indices of the cyclic stream. -/
lemma spawnUsersGo_spec (mk : Nat → Except GooseError GooseUser)
    (users : Nat) (orig : List Nat) (mku : Nat → GooseUser)
    (horig : orig ≠ [])
    (hmkorig : ∀ i ∈ orig, mk i = .ok (mku i)) :
    ∀ (fuel : Nat) (pending : List Nat) (count : Nat) (acc : List GooseUser),
      (∀ i ∈ pending, mk i = .ok (mku i)) →
      count < users →
      (if pending = [] then 2 * (users - count) + 1
        else 2 * (users - count)) ≤ fuel →
      spawnUsersGo mk users orig fuel pending count acc =
        some (.ok (acc ++ (cycleTake orig (users - count) pending).map mku)) := by
  intro fuel
  induction fuel with
  | zero =>
    intro pending count acc hp hc hf
    by_cases hpend : pending = [] <;> simp [hpend] at hf <;> omega
  | succ fuel ih =>
    intro pending count acc hp hc hf
    cases pending with
    | nil =>
      obtain ⟨m, hm⟩ : ∃ m, users - count = m + 1 := ⟨users - count - 1, by omega⟩
      rw [spawnUsersGo, ih orig count acc hmkorig hc ?_]
      · rw [hm, cycleTake_refill]
      · have : ¬ orig = [] := horig
        simp only [this, if_false, if_neg this]
        simp at hf
        omega
    | cons i rest =>
      rw [spawnUsersGo]
      rw [hp i (by simp)]
      by_cases hstop : users ≤ count + 1
      · simp only [if_pos hstop]
        have hr : users - count = 1 := by omega
        rw [hr]
        simp [cycleTake]
      · simp only [if_neg hstop]
        have hc' : count + 1 < users := by omega
        rw [ih rest (count + 1) (acc ++ [mku i])
          (fun j hj => hp j (by simp [hj])) hc' ?_]
        · have hr : users - count = (users - (count + 1)) + 1 := by omega
          rw [hr]
          simp [cycleTake, List.append_assoc]
        · have hb : 2 * (users - count) ≤ fuel + 1 := by
            simpa using hf
          by_cases hrest : rest = [] <;> simp [hrest] <;> omega

lemma weightedIndexes_mem (u : Nat) :
    ∀ (l : List GooseTaskSet) (i0 x : Nat),
      x ∈ weightedIndexes u i0 l → i0 ≤ x ∧ x - i0 < l.length := by
  intro l
  induction l with
  | nil => intro i0 x hx; cases hx
  | cons s rest ih =>
    intro i0 x hx
    rcases List.mem_append.mp hx with h | h
    · rcases List.eq_of_mem_replicate h with rfl
      simp
    · have := ih (i0 + 1) x h
      constructor
      · omega
      · simp only [List.length_cons]
        omega

lemma weightedTaskSetsVector_mem_lt {sets : List GooseTaskSet} {x : Nat}
    (hx : x ∈ weightedTaskSetsVector sets) : x < sets.length := by
  unfold weightedTaskSetsVector at hx
  have := weightedIndexes_mem (gcdFold (sets.map (fun s => s.weight))) sets 0 x hx
  omega

lemma weightedTaskSetsVector_ne_nil {sets : List GooseTaskSet}
    (hne : sets ≠ []) (hw : ∀ s ∈ sets, 0 < s.weight) :
    weightedTaskSetsVector sets ≠ [] := by
  cases sets with
  | nil => exact absurd rfl hne
  | cons s rest =>
    have hpos : 0 < s.weight / gcdFold ((s :: rest).map (fun s => s.weight)) :=
      weight_div_gcd_pos (by simp) (hw s (by simp))
    simp only [weightedTaskSetsVector, weightedIndexes]
    intro h
    rcases List.append_eq_nil.mp h with ⟨h1, -⟩
    have hlen := congrArg List.length h1
    simp only [List.length_replicate, List.length_nil] at hlen
    omega

/-- The user built for index `i` when host resolution succeeds. -/
def mkuTotal (cfg : GooseConfiguration) (defaultHost : Option String)
    (sets : List GooseTaskSet) (i : Nat) : GooseUser :=
  let s := sets.getD i dummyTaskSet
  { task_sets_index := s.task_sets_index
    base_url :=
      match get_base_url (configurationHost cfg) s.host defaultHost with
      | .ok url => url
      | .error _ => ""
    min_wait := s.min_wait
    max_wait := s.max_wait }

lemma mkWeightedUser_ok (cfg : GooseConfiguration)
    (defaultHost : Option String) (sets : List GooseTaskSet) (i : Nat)
    (hok : ∃ url, get_base_url (configurationHost cfg)
      (sets.getD i dummyTaskSet).host defaultHost = .ok url) :
    mkWeightedUser cfg defaultHost sets i =
      .ok (mkuTotal cfg defaultHost sets i) := by
  rcases hok with ⟨url, hurl⟩
  simp only [mkWeightedUser, mkuTotal]
  rw [hurl]

/-- C4 counterexample: requesting zero users still allocates one user (the
stop test runs after the post-increment, lib.rs 917-921), so the returned
vector does not have the requested length. -/
def exampleHostedSet : GooseTaskSet :=
  ⟨0, [], 1, some "http://example.com", 0, 0⟩

theorem weight_task_set_users_zero_counterexample :
    weight_task_set_users defaultConfiguration none [exampleHostedSet] 0 =
      some (.ok [⟨0, "http://example.com", 0, 0⟩]) ∧
    ([(⟨0, "http://example.com", 0, 0⟩ : GooseUser)]).length ≠ 0 :=
  ⟨by rfl, by decide⟩

/-- C4 (amended): for every non-empty list of registered task sets with
positive weights, resolvable hosts and registration-order indices, and
every requested user count `N ≥ 1`, `weight_task_set_users` returns
exactly `N` users whose task-set indices are the length-`N` prefix of the
cyclic repetition of the gcd-reduced weighted index vector; for `N = 0`
one user is still allocated (see the counterexample). -/
theorem weight_task_set_users_cyclic :
    ∀ (cfg : GooseConfiguration) (dh : Option String)
      (sets : List GooseTaskSet) (n : Nat),
      sets ≠ [] →
      (∀ s ∈ sets, 0 < s.weight) →
      (∀ s ∈ sets, ∃ url,
        get_base_url (configurationHost cfg) s.host dh = .ok url) →
      (∀ (i : Nat) (h : i < sets.length),
        (sets.get ⟨i, h⟩).task_sets_index = i) →
      1 ≤ n →
      ∃ l, weight_task_set_users cfg dh sets n = some (.ok l) ∧
        l.length = n ∧
        l.map (fun u => u.task_sets_index) =
          cycleTake (weightedTaskSetsVector sets) n
            (weightedTaskSetsVector sets) := by
  intro cfg dh sets n hne hw hhost hwf hn
  have hvne : weightedTaskSetsVector sets ≠ [] :=
    weightedTaskSetsVector_ne_nil hne hw
  have hmk : ∀ i ∈ weightedTaskSetsVector sets,
      mkWeightedUser cfg dh sets i = .ok (mkuTotal cfg dh sets i) := by
    intro i hi
    have hilt : i < sets.length := weightedTaskSetsVector_mem_lt hi
    refine mkWeightedUser_ok cfg dh sets i ?_
    have hget : sets.getD i dummyTaskSet = sets.get ⟨i, hilt⟩ := by
      rw [List.getD_eq_getElem?_getD, List.getElem?_eq_getElem hilt]
      rfl
    rw [hget]
    exact hhost _ (List.get_mem sets i hilt)
  have hspec := spawnUsersGo_spec (mkWeightedUser cfg dh sets) n
    (weightedTaskSetsVector sets) (mkuTotal cfg dh sets) hvne hmk
    (2 * n + 3) (weightedTaskSetsVector sets) 0 [] hmk (by omega)
    (by rw [if_neg hvne]; omega)
  refine ⟨(cycleTake (weightedTaskSetsVector sets) n
      (weightedTaskSetsVector sets)).map (mkuTotal cfg dh sets), ?_, ?_, ?_⟩
  · simp only [weight_task_set_users]
    simpa using hspec
  · rw [List.length_map]
    exact cycleTake_length _ hvne n _
  · rw [List.map_map]
    have : ∀ x ∈ cycleTake (weightedTaskSetsVector sets) n
        (weightedTaskSetsVector sets),
        ((fun u => u.task_sets_index) ∘ mkuTotal cfg dh sets) x = x := by
      intro x hx
      have hxin : x ∈ weightedTaskSetsVector sets := by
        rcases cycleTake_mem _ n _ x hx with h | h
        · exact h
        · exact h
      have hilt : x < sets.length := weightedTaskSetsVector_mem_lt hxin
      have hget : sets.getD x dummyTaskSet = sets.get ⟨x, hilt⟩ := by
        rw [List.getD_eq_getElem?_getD, List.getElem?_eq_getElem hilt]
        rfl
      simp only [Function.comp, mkuTotal, hget]
      exact hwf x hilt
    rw [List.map_congr_left this]
    simp

/-- Witness for C4's amended statement at two users over one task set. -/
theorem weight_task_set_users_cyclic_witness :
    ∃ l, weight_task_set_users defaultConfiguration none [exampleHostedSet] 2 =
        some (.ok l) ∧
      l.length = 2 ∧
      l.map (fun u => u.task_sets_index) =
        cycleTake (weightedTaskSetsVector [exampleHostedSet]) 2
          (weightedTaskSetsVector [exampleHostedSet]) := by
  have hw : ∀ s ∈ [exampleHostedSet], 0 < s.weight := by
    intro s hs
    simp only [List.mem_singleton] at hs
    subst hs
    decide
  have hhost : ∀ s ∈ [exampleHostedSet], ∃ url,
      get_base_url (configurationHost defaultConfiguration) s.host none =
        .ok url := by
    intro s hs
    simp only [List.mem_singleton] at hs
    subst hs
    exact ⟨"http://example.com", rfl⟩
  have hwf : ∀ (i : Nat)
      (h : i < ([exampleHostedSet] : List GooseTaskSet).length),
      (([exampleHostedSet] : List GooseTaskSet).get ⟨i, h⟩).task_sets_index =
        i := by
    intro i h
    have hi : i = 0 := by
      simp only [List.length_singleton] at h
      omega
    subst hi
    rfl
  exact weight_task_set_users_cyclic defaultConfiguration none
    [exampleHostedSet] 2 (by simp) hw hhost hwf (by omega)
